import Mathlib

/-!
Verification of the terraform-provider-docker repository.

This file gives a shallow embedding of the provider code that the claims
C1 to C10 are about, and proves or refutes each claim.

Conventions of the embedding:
- Go maps are embedded as association lists; the order of an association
  list models the (arbitrary) order in which a Go `range` loop enumerates
  the map.  Where the source sorts keys before iterating, the embedding
  sorts as well.
- Remote systems (Docker daemon, Docker Hub) are oracles: their replies
  are parameters of the embedded functions, and the requests that the
  provider issues are returned as an explicit trace of operations.
- The recursive depth-first traversal of `getServiceOrder` is embedded
  with an explicit fuel argument; the fuel chosen is provably sufficient,
  so the embedded function computes the same result as the source.
-/

namespace TPD

/-! ## Compose project model (src/unnamed/part_006)

A compose service as far as start ordering is concerned: the keys of its
`depends_on` map, in enumeration order.  Other service fields (image,
command, ports, ...) do not influence the claims about ordering and are
not carried. -/

structure ServiceConf where
  dependsOn : List String
  deriving Repr, DecidableEq

/-- Network entry of a compose project (`parseNetwork`). -/
structure NetworkConf where
  driver : String := ""
  external : Bool := false
  deriving Repr, DecidableEq

/-- Volume entry of a compose project (`parseVolume`). -/
structure VolumeConf where
  driver : String := ""
  external : Bool := false
  deriving Repr, DecidableEq

/-- A compose project: the `Services`, `Networks` and `Volumes` maps of
`composetypes.Project`, as association lists in enumeration order. -/
structure Project where
  services : List (String × ServiceConf)
  networks : List (String × NetworkConf) := []
  volumes : List (String × VolumeConf) := []
  deriving Repr, DecidableEq

/-- The service names of a project (the key set of `project.Services`). -/
def serviceNames (p : Project) : List String :=
  p.services.map Prod.fst

/-- Lookup of `project.Services[name].DependsOn`: a Go map read returns the
zero value when the key is absent, and the zero `ServiceConfig` has an empty
`DependsOn` map. -/
def deps (p : Project) (name : String) : List String :=
  match p.services.find? (fun e => e.fst = name) with
  | some e => e.snd.dependsOn
  | none => []

/-- All names the traversal of `getServiceOrder` can ever reach: the
service names together with every name mentioned in a `depends_on`.
Used only to size the fuel of the embedded recursion. -/
def allNames (p : Project) : List String :=
  serviceNames p ++ ((serviceNames p).map (fun n => deps p n)).flatten

/-- Fuel that provably suffices for the depth-first traversal. -/
def totalFuel (p : Project) : Nat :=
  (allNames p).length + 1

/-- Mutable state of the traversal in `getServiceOrder`: the `visited` map
(as the list of keys set to true) and the `order` slice. -/
structure DfsState where
  visited : List String
  order : List String
  deriving Repr, DecidableEq

/-- The recursive closure `visit` of `ComposeResource.getServiceOrder`:
mark the name visited, recurse into its `depends_on` entries in enumeration
order, then append the name to the order.  Fuel only bounds the recursion
depth; `totalFuel` makes it irrelevant. -/
def visit (p : Project) : Nat → String → DfsState → DfsState
  | 0, _, s => s
  | fuel + 1, name, s =>
    if name ∈ s.visited then s
    else
      let s2 := (deps p name).foldl (fun acc d => visit p fuel d acc)
        ⟨name :: s.visited, s.order⟩
      ⟨s2.visited, s2.order ++ [name]⟩

/-- Lexicographic comparison of character lists, the order `sort.Strings`
uses (Go sorts byte-lexicographically; on the code-point lists this is the
same order for the ASCII names at issue). -/
def lexLe : List Char → List Char → Bool
  | [], _ => true
  | _ :: _, [] => false
  | a :: as, b :: bs => if a = b then lexLe as bs else decide (a < b)

/-- String comparison used for sorting service names. -/
def strLe (a b : String) : Prop :=
  lexLe a.data b.data = true

instance : DecidableRel strLe := fun a b => by
  unfold strLe; infer_instance

/-- The `sort.Strings` call of the source: sort service names ascending. -/
def sortStrings (l : List String) : List String :=
  List.insertionSort strLe l

/-- Embedding of `ComposeResource.getServiceOrder`: sort the service names,
then run the depth-first visit over them, returning the accumulated order. -/
def getServiceOrder (p : Project) : List String :=
  ((sortStrings (serviceNames p)).foldl
    (fun s n => visit p (totalFuel p) n s) ⟨[], []⟩).order

/-! ## Docker API operation traces

Docker Engine requests the compose resource can issue.  Container create
and start operations are tagged with the service they belong to; the other
operations carry the object name or id they address. -/

inductive DockerOp where
  | networkInspect (name : String)
  | networkCreate (name : String)
  | volumeInspect (name : String)
  | volumeCreate (name : String)
  | containerInspect (name : String)
  | containerCreate (service : String)
  | containerStart (service : String)
  | containerList (project : String)
  | containerStop (id : String)
  | containerRemove (id : String)
  | networkList (project : String)
  | networkRemove (id : String)
  | volumeList (project : String)
  | volumeRemove (name : String)
  deriving Repr, DecidableEq

/-- Oracle for the Docker daemon's replies during compose Create: whether
inspected objects already exist, whether a create call fails, and the
running-container count that `refreshStackInfo` observes. -/
structure Engine where
  netExists : String → Bool
  volExists : String → Bool
  ctrExists : String → Bool
  netCreateErr : String → Bool
  volCreateErr : String → Bool
  ctrCreateErr : String → Bool
  ctrStartErr : String → Bool
  runningCount : Nat

/-- Embedding of `ComposeResource.createNetwork`: skip external networks,
inspect `project_name`, create when absent.  Returns the issued operations
and whether the call reported an error. -/
def createNetworkStep (e : Engine) (projectName name : String)
    (c : NetworkConf) : List DockerOp × Bool :=
  if c.external then ([], false)
  else
    let full := projectName ++ "_" ++ name
    if e.netExists full then ([.networkInspect full], false)
    else ([.networkInspect full, .networkCreate full], e.netCreateErr full)

/-- Embedding of `ComposeResource.createVolume`, same shape as
`createNetworkStep`. -/
def createVolumeStep (e : Engine) (projectName name : String)
    (c : VolumeConf) : List DockerOp × Bool :=
  if c.external then ([], false)
  else
    let full := projectName ++ "_" ++ name
    if e.volExists full then ([.volumeInspect full], false)
    else ([.volumeInspect full, .volumeCreate full], e.volCreateErr full)

/-- Embedding of `ComposeResource.createService`: inspect the container
`project-service-1`; when it exists just start it, otherwise create it and
then start it.  The container configuration built from the service fields
does not affect these claims and is not carried. -/
def createServiceStep (e : Engine) (projectName serviceName : String) :
    List DockerOp × Bool :=
  let cname := projectName ++ "-" ++ serviceName ++ "-1"
  if e.ctrExists cname then
    ([.containerInspect cname, .containerStart serviceName],
     e.ctrStartErr serviceName)
  else if e.ctrCreateErr serviceName then
    ([.containerInspect cname, .containerCreate serviceName], true)
  else
    ([.containerInspect cname, .containerCreate serviceName,
      .containerStart serviceName], e.ctrStartErr serviceName)

/-- The Terraform model of the compose resource (`ComposeResourceModel`).
Computed attributes are `Option` so an unset value is `none`. -/
structure ComposeModel where
  id : Option String := none
  projectName : String
  composeFile : Option String := none
  composeContent : Option String := none
  removeOrphans : Bool := true
  removeVolumes : Bool := false
  forceRecreate : Bool := false
  contentHash : Option String := none
  services : Option (List String) := none
  runningServices : Option Nat := none
  deriving Repr, DecidableEq

/-- Result of a Create call: error diagnostics added, the Docker requests
issued, and the state written (`none` when the source returns before
`resp.State.Set`). -/
structure CreateResult where
  errors : List String
  ops : List DockerOp
  newState : Option ComposeModel
  deriving Repr, DecidableEq

/-- Runs a list of steps, each a triple of issued operations, an error
flag, and the diagnostic title the Create loop would add.  A failing step
stops the sequence, as the source returns on the first error. -/
def seqSteps : List (List DockerOp × Bool × String) → List DockerOp × Option String
  | [] => ([], none)
  | (ops, err, title) :: rest =>
    if err then (ops, some title)
    else
      let r := seqSteps rest
      (ops ++ r.1, r.2)

/-- Tail of `ComposeResource.Create` after the provisioning loops: on the
first error add its diagnostic and return without writing state; on
success refresh stack info (one container list) and write state. -/
def composeCreateFinish (e : Engine) (data : ComposeModel) (project : Project)
    (hash : String) (r : List DockerOp × Option String) : CreateResult :=
  match r with
  | (ops, some title) => { errors := [title], ops := ops, newState := none }
  | (ops, none) =>
    { errors := [],
      ops := ops ++ [.containerList data.projectName],
      newState := some { data with
        id := some data.projectName,
        contentHash := some hash,
        services := some (sortStrings (serviceNames project)),
        runningServices := some e.runningCount } }

/-- Embedding of `ComposeResource.Create`.  The result of
`parseComposeFile` (file IO and YAML parsing) and of `calculateContentHash`
(sha256) enter as the parameters `parsed` and `hash`.  After the guard on a
missing configuration and the parse, Create provisions networks, volumes,
and then services in `getServiceOrder` order, stopping at the first error;
on success it refreshes stack info and writes state. -/
def composeCreate (e : Engine) (data : ComposeModel)
    (parsed : Except String Project) (hash : String) : CreateResult :=
  if data.composeFile.isNone && data.composeContent.isNone then
    { errors := ["Missing Compose Configuration"], ops := [], newState := none }
  else
    match parsed with
    | .error _ =>
      { errors := ["Compose Parse Error"], ops := [], newState := none }
    | .ok project =>
      let steps : List (List DockerOp × Bool × String) :=
        project.networks.map (fun nc =>
          ((createNetworkStep e data.projectName nc.1 nc.2).1,
           (createNetworkStep e data.projectName nc.1 nc.2).2,
           "Network Create Error"))
        ++ project.volumes.map (fun vc =>
          ((createVolumeStep e data.projectName vc.1 vc.2).1,
           (createVolumeStep e data.projectName vc.1 vc.2).2,
           "Volume Create Error"))
        ++ (getServiceOrder project).map (fun sname =>
          ((createServiceStep e data.projectName sname).1,
           (createServiceStep e data.projectName sname).2,
           "Service Create Error"))
      composeCreateFinish e data project hash (seqSteps steps)

/-- The services started by a trace, in order. -/
def startedServices (ops : List DockerOp) : List String :=
  ops.filterMap (fun op =>
    match op with
    | .containerStart s => some s
    | _ => none)

/-! ## Compose Delete (labels-based teardown) -/

/-- An object on the Docker daemon, as far as label-based selection is
concerned: its id (for volumes, the name) and its label map. -/
structure LabeledObj where
  id : String
  labels : List (String × String)
  deriving Repr, DecidableEq

/-- The daemon's object stores relevant to compose Delete. -/
structure EngineState where
  containers : List LabeledObj
  networks : List LabeledObj
  volumes : List LabeledObj
  deriving Repr, DecidableEq

/-- The label selector `com.docker.compose.project=name` used by the
`filters.Arg("label", ...)` calls. -/
def hasProjectLabel (projectName : String) (o : LabeledObj) : Bool :=
  ("com.docker.compose.project", projectName) ∈ o.labels

/-- A filtered list call: the daemon returns the objects carrying the
project label. -/
def listByProject (objs : List LabeledObj) (projectName : String) :
    List LabeledObj :=
  objs.filter (fun o => hasProjectLabel projectName o)

/-- Removal calls issued one id at a time, as the source loops issuing one
remove per listed object. -/
def removeIds (objs : List LabeledObj) (ids : List String) : List LabeledObj :=
  ids.foldl (fun acc i => acc.filter (fun o => o.id ≠ i)) objs

/-- Embedding of `ComposeResource.removeProjectContainers`: list the
project's containers, then stop and remove each. -/
def removeProjectContainers (st : EngineState) (projectName : String) :
    EngineState × List DockerOp :=
  let cs := listByProject st.containers projectName
  ({ st with containers := removeIds st.containers (cs.map (fun o => o.id)) },
   DockerOp.containerList projectName ::
     (cs.map (fun c => [DockerOp.containerStop c.id,
       DockerOp.containerRemove c.id])).flatten)

/-- Embedding of `ComposeResource.removeProjectNetworks`. -/
def removeProjectNetworks (st : EngineState) (projectName : String) :
    EngineState × List DockerOp :=
  let ns := listByProject st.networks projectName
  ({ st with networks := removeIds st.networks (ns.map (fun o => o.id)) },
   DockerOp.networkList projectName ::
     ns.map (fun n => DockerOp.networkRemove n.id))

/-- Embedding of `ComposeResource.removeProjectVolumes`. -/
def removeProjectVolumes (st : EngineState) (projectName : String) :
    EngineState × List DockerOp :=
  let vs := listByProject st.volumes projectName
  ({ st with volumes := removeIds st.volumes (vs.map (fun o => o.id)) },
   DockerOp.volumeList projectName ::
     vs.map (fun v => DockerOp.volumeRemove v.id))

/-- Embedding of `ComposeResource.Delete`: remove the project's containers
and networks, and its volumes only when `remove_volumes` is set. -/
def composeDelete (st : EngineState) (data : ComposeModel) :
    EngineState × List DockerOp :=
  let r1 := removeProjectContainers st data.projectName
  let r2 := removeProjectNetworks r1.1 data.projectName
  if data.removeVolumes then
    let r3 := removeProjectVolumes r2.1 data.projectName
    (r3.1, r1.2 ++ r2.2 ++ r3.2)
  else (r2.1, r1.2 ++ r2.2)

/-! ## Swarm service convergence loop
(src/internal/provider/service_resource.go, waitForConvergence) -/

/-- The `UpdateStatus.State` of an inspected Swarm service; states other
than completed and paused (updating, rollback, ...) carry their tag. -/
inductive SvcUpdateState where
  | completed
  | paused
  | active (tag : String)
  deriving Repr, DecidableEq

/-- One reply of `ServiceInspectWithRaw`: an error, or a service whose
`UpdateStatus` is `none` (absent) or carries a state. -/
inductive InspectResult where
  | err (msg : String)
  | ok (status : Option SvcUpdateState)
  deriving Repr, DecidableEq

/-- Diagnostics added by the convergence wait, and the number of inspect
calls it issued. -/
structure ConvergeOutcome where
  warnings : List String
  errors : List String
  inspects : Nat
  deriving Repr, DecidableEq

/-- A reply on which the source's loop returns: `UpdateStatus` absent, or
state completed, or state paused. -/
def isTerminal : InspectResult → Bool
  | .err _ => false
  | .ok none => true
  | .ok (some .completed) => true
  | .ok (some .paused) => true
  | .ok (some (.active _)) => false

/-- The polling loop of `waitForConvergence`.  Real time is discretised:
each iteration sleeps the configured delay, so the timeout admits a fixed
number of poll slots (the budget); `polls i` is the daemon's reply to the
i-th inspect.  Inspect errors are logged and polling continues, exactly as
in the source. -/
def waitLoop (polls : Nat → InspectResult) : Nat → Nat → ConvergeOutcome
  | _, 0 => ⟨["Service Convergence Timeout"], [], 0⟩
  | i, b + 1 =>
    match polls i with
    | .err _ =>
      let r := waitLoop polls (i + 1) b
      { r with inspects := r.inspects + 1 }
    | .ok none => ⟨[], [], 1⟩
    | .ok (some .completed) => ⟨[], [], 1⟩
    | .ok (some .paused) => ⟨["Service Update Paused"], [], 1⟩
    | .ok (some (.active _)) =>
      let r := waitLoop polls (i + 1) b
      { r with inspects := r.inspects + 1 }

/-- The converge block configuration: how many poll slots the configured
timeout and delay admit. -/
structure ConvergeConfig where
  budget : Nat
  deriving Repr, DecidableEq

/-- Embedding of `ServiceResource.waitForConvergence`: without a converge
config the function returns immediately; otherwise it runs the polling
loop. -/
def waitForConvergence (cfg : Option ConvergeConfig)
    (polls : Nat → InspectResult) : ConvergeOutcome :=
  match cfg with
  | none => ⟨[], [], 0⟩
  | some c => waitLoop polls 0 c.budget

/-- The warnings the loop adds when it returns on a terminal reply. -/
def terminalWarnings : InspectResult → List String
  | .ok (some .paused) => ["Service Update Paused"]
  | _ => []

/-! ## Docker Hub client (src/unnamed/part_000) -/

/-- The provider's Docker Hub credentials (`dockerhub.Config`). -/
structure HubConfig where
  username : String
  password : String
  token : String
  deriving Repr, DecidableEq

/-- What the POST to `/users/login` yields: a transport error, or an HTTP
response with its status code and, for the body, the token field when the
body decodes and `none` when JSON decoding fails. -/
inductive LoginOutcome where
  | transportErr (msg : String)
  | response (status : Nat) (tokenField : Option String)
  deriving Repr, DecidableEq

/-- The constructed Hub client: the stored bearer token and username. -/
structure HubClient where
  token : String
  username : String
  deriving Repr, DecidableEq

/-- Embedding of `Client.authenticate`: non-200 statuses and transport
failures are errors; a 200 body that does not decode is also an error;
otherwise the decoded token is stored. -/
def authenticate (login : LoginOutcome) : Except String String :=
  match login with
  | .transportErr m => .error m
  | .response status tokenField =>
    if status ≠ 200 then .error "authentication failed: non-200 status"
    else
      match tokenField with
      | some t => .ok t
      | none => .error "failed to decode login response"

/-- Embedding of `dockerhub.NewClient`.  Returns the client or the error,
together with the number of HTTP requests performed (0 or 1). -/
def newHubClient (c : HubConfig) (login : LoginOutcome) :
    Except String HubClient × Nat :=
  if c.token ≠ "" then (.ok ⟨c.token, c.username⟩, 0)
  else if c.username ≠ "" ∧ c.password ≠ "" then
    match authenticate login with
    | .ok t => (.ok ⟨t, c.username⟩, 1)
    | .error msg => (.error ("authentication failed: " ++ msg), 1)
  else (.ok ⟨"", ""⟩, 0)

/-- Whether a login outcome is a failed request or a non-200 reply — the
two failure cases the specification names. -/
def loginFailedOrNon200 : LoginOutcome → Prop
  | .transportErr _ => True
  | .response status _ => status ≠ 200

/-- The exact failure condition of `Client.authenticate`: a failed request,
a non-200 reply, or a 200 reply whose body does not decode. -/
def loginFails : LoginOutcome → Prop
  | .transportErr _ => True
  | .response status body => status ≠ 200 ∨ body = none

/-- Whether an `Except` result is an error. -/
def isErr {α β : Type} : Except α β → Bool
  | .error _ => true
  | .ok _ => false

/-! ## Provider configuration (src/unnamed/part_009) -/

/-- The provider configuration block; `none` models a null attribute. -/
structure ProviderConfig where
  host : Option String := none
  tlsVerify : Option Bool := none
  certPath : Option String := none
  caCert : Option String := none
  cert : Option String := none
  key : Option String := none
  hubUsername : Option String := none
  hubPassword : Option String := none
  hubToken : Option String := none
  deriving Repr, DecidableEq

/-- The environment variables Configure consults (empty string when
unset, as `os.Getenv` returns). -/
structure EnvVars where
  dockerHost : String := ""
  dockerTlsVerify : String := ""
  dockerCertPath : String := ""
  hubUsername : String := ""
  hubPassword : String := ""
  hubToken : String := ""
  deriving Repr, DecidableEq

/-- An attribute value: the environment variable unless the configuration
overrides it (the source reads the env var first and overwrites it when the
attribute is non-null). -/
def effective (envVal : String) (cfgVal : Option String) : String :=
  cfgVal.getD envVal

/-- Result of `DockerProvider.Configure`: diagnostics, whether a Docker
Hub client build was attempted, and the published provider data (`none`
when Configure returned before publishing).  Provider data records the
Docker Engine client presence and the optional Hub client. -/
structure ConfigureResult where
  errors : List String
  warnings : List String
  hubAttempted : Bool
  providerData : Option (Option HubClient)
  deriving Repr, DecidableEq

/-- The effective `tls_verify` flag. -/
def effectiveTlsVerify (cfg : ProviderConfig) (env : EnvVars) : Bool :=
  cfg.tlsVerify.getD (env.dockerTlsVerify = "1")

/-- The TLS validation gate of Configure: with `tls_verify` set, either a
cert path or all three PEM contents must be present. -/
def tlsConfigMissing (cfg : ProviderConfig) (env : EnvVars) : Bool :=
  effectiveTlsVerify cfg env &&
    !(effective env.dockerCertPath cfg.certPath ≠ "" ||
      (cfg.caCert.getD "" ≠ "" && cfg.cert.getD "" ≠ "" && cfg.key.getD "" ≠ ""))

/-- Embedding of `DockerProvider.Configure` (after a successful
`req.Config.Get`).  The Docker Engine client build result and the Hub
login reply enter as oracles.  A Hub client is attempted only when a hub
username and a password or token are present; its failure adds a warning
only, and provider data is still published with a nil Hub client. -/
def configure (cfg : ProviderConfig) (env : EnvVars)
    (dockerRes : Except String Unit) (login : LoginOutcome) : ConfigureResult :=
  if tlsConfigMissing cfg env then
    { errors := ["Missing TLS Configuration"], warnings := [],
      hubAttempted := false, providerData := none }
  else
    match dockerRes with
    | .error _ =>
      { errors := ["Unable to Create Docker Client"], warnings := [],
        hubAttempted := false, providerData := none }
    | .ok _ =>
      let hubUsername := effective env.hubUsername cfg.hubUsername
      let hubPassword := effective env.hubPassword cfg.hubPassword
      let hubToken := effective env.hubToken cfg.hubToken
      if hubUsername ≠ "" ∧ (hubPassword ≠ "" ∨ hubToken ≠ "") then
        match (newHubClient ⟨hubUsername, hubPassword, hubToken⟩ login).1 with
        | .error _ =>
          { errors := [], warnings := ["Docker Hub Authentication Failed"],
            hubAttempted := true, providerData := some none }
        | .ok c =>
          { errors := [], warnings := [],
            hubAttempted := true, providerData := some (some c) }
      else
        { errors := [], warnings := [],
          hubAttempted := false, providerData := some none }

/-! ## Read 404 handling across the provider's resources

Each resource's Read performs one existence lookup and branches on the
error text.  The embedding captures that branch: the input is `none` when
the lookup succeeded and `some msg` when it failed with message `msg`. -/

/-- What a Read does after its lookup: drop the resource from state, add
an error diagnostic, refresh state from the reply, or return leaving state
untouched. -/
inductive ReadAction where
  | removeFromState
  | errorDiag (title : String)
  | refresh
  | keepState
  deriving Repr, DecidableEq

/-- Substring test on character lists (Go `strings.Contains`). -/
def hasSub (hay needle : List Char) : Bool :=
  match hay with
  | [] => needle.isEmpty
  | _ :: t => needle.isPrefixOf hay || hasSub t needle

/-- Go `strings.Contains(hay, needle)`. -/
def strContains (hay needle : String) : Bool :=
  hasSub hay.data needle.data

/-- NetworkResource.Read error branch. -/
def networkReadAction : Option String → ReadAction
  | none => .refresh
  | some msg =>
    if strContains msg "not found" || strContains msg "No such network" then
      .removeFromState
    else .errorDiag "Network Read Error"

/-- VolumeResource.Read error branch. -/
def volumeReadAction : Option String → ReadAction
  | none => .refresh
  | some msg =>
    if strContains msg "no such volume" || strContains msg "not found" then
      .removeFromState
    else .errorDiag "Volume Read Error"

/-- ImageResource.Read error branch. -/
def imageReadAction : Option String → ReadAction
  | none => .refresh
  | some msg =>
    if strContains msg "No such image" then .removeFromState
    else .errorDiag "Image Read Error"

/-- TagResource.Read error branch. -/
def tagReadAction : Option String → ReadAction
  | none => .refresh
  | some msg =>
    if strContains msg "No such image" then .removeFromState
    else .errorDiag "Docker Image Read Failed"

/-- ContainerResource.Read error branch. -/
def containerReadAction : Option String → ReadAction
  | none => .refresh
  | some msg =>
    if strContains msg "No such container" || strContains msg "not found" then
      .removeFromState
    else .errorDiag "Container Read Error"

/-- ServiceResource.Read error branch. -/
def serviceReadAction : Option String → ReadAction
  | none => .refresh
  | some msg =>
    if strContains msg "No such service" || strContains msg "service not found" then
      .removeFromState
    else .errorDiag "Docker Service Read Failed"

/-- ConfigResource.Read error branch. -/
def configReadAction : Option String → ReadAction
  | none => .refresh
  | some msg =>
    if strContains msg "No such config" || strContains msg "config not found" then
      .removeFromState
    else .errorDiag "Docker Config Read Failed"

/-- SecretResource.Read error branch. -/
def secretReadAction : Option String → ReadAction
  | none => .refresh
  | some msg =>
    if strContains msg "No such secret" || strContains msg "secret not found" then
      .removeFromState
    else .errorDiag "Docker Secret Read Failed"

/-- OrgTeamResource.Read error branch. -/
def orgTeamReadAction : Option String → ReadAction
  | none => .refresh
  | some msg =>
    if strContains msg "404" || strContains msg "not found" then
      .removeFromState
    else .errorDiag "Docker Hub Team Read Failed"

/-- OrgMemberResource.Read error branch. -/
def orgMemberReadAction : Option String → ReadAction
  | none => .refresh
  | some msg =>
    if strContains msg "404" || strContains msg "not found" then
      .removeFromState
    else .errorDiag "Docker Hub Organization Member Read Failed"

/-- AccessTokenResource.Read error branch. -/
def accessTokenReadAction : Option String → ReadAction
  | none => .refresh
  | some msg =>
    if strContains msg "404" || strContains msg "not found" then
      .removeFromState
    else .errorDiag "Docker Hub Access Token Read Failed"

/-- HubRepositoryResource.Read error branch. -/
def hubRepositoryReadAction : Option String → ReadAction
  | none => .refresh
  | some msg =>
    if strContains msg "404" || strContains msg "not found" then
      .removeFromState
    else .errorDiag "Docker Hub Repository Read Failed"

/-- HubRepositoryTeamPermissionResource.Read error branch. -/
def hubRepoTeamPermReadAction : Option String → ReadAction
  | none => .refresh
  | some msg =>
    if strContains msg "404" || strContains msg "not found" then
      .removeFromState
    else .errorDiag "Docker Hub Repository Team Permission Read Failed"

/-- RegistryImageResource.Read error branch: on a local "No such image" it
deliberately returns leaving state untouched — the image may still exist in
the registry — and never removes the resource. -/
def registryImageReadAction : Option String → ReadAction
  | none => .refresh
  | some msg =>
    if strContains msg "No such image" then .keepState
    else .errorDiag "Docker Image Read Failed"

/-- OrgTeamMemberResource.Read: the lookup is `IsTeamMember`, returning a
membership flag or an error.  Every lookup error — a 404 included — becomes
an error diagnostic; only a successful reply with the member absent removes
the resource from state. -/
def orgTeamMemberReadAction : Except String Bool → ReadAction
  | .error _ => .errorDiag "Docker Hub Team Member Read Failed"
  | .ok false => .removeFromState
  | .ok true => .refresh

/-- The Read branches of every resource whose Read performs an existence
lookup with an error-text branch, paired with a message its backing API
produces when the object is gone (Docker daemon not-found texts, and for
Hub resources the `API error: 404 Not Found - ...` text that
`Client.doRequest` formats).  `ComposeResource.Read` performs no existence
lookup and `OrgTeamMemberResource.Read` branches on a membership flag, so
they are not in this table. -/
def readBranches : List (String × (Option String → ReadAction) × String) :=
  [("network", networkReadAction,
    "Error response from daemon: network abc123 not found"),
   ("volume", volumeReadAction,
    "Error response from daemon: get data1: no such volume"),
   ("image", imageReadAction,
    "Error response from daemon: No such image: nginx:latest"),
   ("tag", tagReadAction,
    "Error response from daemon: No such image: nginx:v2"),
   ("container", containerReadAction,
    "Error response from daemon: No such container: abc123"),
   ("service", serviceReadAction,
    "Error: No such service: web1"),
   ("config", configReadAction,
    "Error: No such config: cfg1"),
   ("secret", secretReadAction,
    "Error: No such secret: sec1"),
   ("org_team", orgTeamReadAction,
    "API error: 404 Not Found - \x7b\"detail\": \"Not found\"\x7d"),
   ("org_member", orgMemberReadAction,
    "API error: 404 Not Found - \x7b\"detail\": \"Not found\"\x7d"),
   ("access_token", accessTokenReadAction,
    "API error: 404 Not Found - \x7b\"detail\": \"Not found\"\x7d"),
   ("hub_repository", hubRepositoryReadAction,
    "API error: 404 Not Found - \x7b\"detail\": \"Not found\"\x7d"),
   ("hub_repository_team_permission", hubRepoTeamPermReadAction,
    "API error: 404 Not Found - \x7b\"detail\": \"Not found\"\x7d")]

/-! ## Concrete inputs for the instance checks -/

/-- A project with one service depending on two others; with `depends_on`
enumerated as b then c. -/
def cexP1 : Project :=
  { services := [("a", ⟨["b", "c"]⟩), ("b", ⟨[]⟩), ("c", ⟨[]⟩)] }

/-- The same project's map contents with `depends_on` enumerated as c then
b — a different but equally possible Go map iteration. -/
def cexP2 : Project :=
  { services := [("a", ⟨["c", "b"]⟩), ("b", ⟨[]⟩), ("c", ⟨[]⟩)] }

/-- A small acyclic project: web depends on db. -/
def witP : Project :=
  { services := [("db", ⟨[]⟩), ("web", ⟨["db"]⟩)] }

/-- A rank function for `witP`. -/
def witRank : String → Nat := fun n => if n = "web" then 1 else 0

/-- A project with a depends_on entry naming an undefined service. -/
def witP9 : Project :=
  { services := [("b", ⟨["zz", "a"]⟩), ("a", ⟨[]⟩)] }

/-- A single-dependency project, first enumeration. -/
def detP1 : Project :=
  { services := [("a", ⟨["b"]⟩), ("b", ⟨[]⟩)] }

/-- The same single-dependency project, other enumeration. -/
def detP2 : Project :=
  { services := [("b", ⟨[]⟩), ("a", ⟨["b"]⟩)] }

/-- A one-service project. -/
def witP6 : Project :=
  { services := [("web", ⟨[]⟩)] }

/-- A daemon oracle where nothing exists and nothing fails. -/
def quietEngine : Engine :=
  ⟨fun _ => false, fun _ => false, fun _ => false, fun _ => false,
   fun _ => false, fun _ => false, fun _ => false, 0⟩

/-- A compose model with inline content. -/
def witData : ComposeModel :=
  { projectName := "app", composeContent := some "services:" }

/-- A compose model with neither file nor content. -/
def emptyData : ComposeModel := { projectName := "app" }

/-- Inspect replies that never reach a terminal state. -/
def pollsStuck : Nat → InspectResult := fun _ => .ok (some (.active "updating"))

/-- Inspect replies failing twice, then a service without UpdateStatus. -/
def pollsDone : Nat → InspectResult := fun i =>
  if i < 2 then .err "inspect failed" else .ok none

/-- A daemon state with one labeled and one unlabeled object per store. -/
def witDelState : EngineState :=
  { containers := [⟨"c1", [("com.docker.compose.project", "app")]⟩,
      ⟨"c2", [("other", "x")]⟩],
    networks := [⟨"n1", [("com.docker.compose.project", "app")]⟩,
      ⟨"n2", [("other", "x")]⟩],
    volumes := [⟨"v1", [("com.docker.compose.project", "app")]⟩,
      ⟨"v2", [("other", "x")]⟩] }

/-- Delete inputs for the project named app, keeping volumes. -/
def witDelData : ComposeModel := { projectName := "app", removeVolumes := false }

/-- A provider configuration with hub username and password only. -/
def cfg0 : ProviderConfig :=
  { hubUsername := some "user", hubPassword := some "pass" }

/-- An environment with every variable unset. -/
def env0 : EnvVars := {}

/-! ## Specification predicates -/

/-- Number of reachable names not yet visited; the decreasing measure that
shows `totalFuel` suffices for the traversal. -/
def unvisited (p : Project) (visited : List String) : Nat :=
  ((allNames p).toFinset \ visited.toFinset).card

/-- Invariant of the depth-first traversal, relative to the list `A` of
names on the recursion stack: the order has no duplicates, order entries
are visited, visited names are in the order or on the stack, order entries
are off the stack, and stack entries are visited. -/
structure Inv (A : List String) (s : DfsState) : Prop where
  nodup : s.order.Nodup
  order_vis : ∀ x ∈ s.order, x ∈ s.visited
  vis_order : ∀ x ∈ s.visited, x ∈ s.order ∨ x ∈ A
  order_stack : ∀ x ∈ s.order, x ∉ A
  stack_vis : ∀ a ∈ A, a ∈ s.visited

/-- Some occurrence of `a` comes strictly before some occurrence of `b` in
`l`; on a duplicate-free list this says `a` is strictly before `b`. -/
def Before (l : List String) (a b : String) : Prop :=
  ∃ l1 l2, l = l1 ++ l2 ∧ a ∈ l1 ∧ b ∈ l2

/-- An order is topological for a project when every dependency of an
entry appears strictly before it. -/
def Topo (p : Project) (ord : List String) : Prop :=
  ∀ x ∈ ord, ∀ d ∈ deps p x, Before ord d x

/-- A rank function witnessing that the depends_on graph is acyclic:
ranks strictly decrease along every depends_on edge.  A finite graph is
acyclic exactly when such a function exists. -/
def RankOk (p : Project) (rank : String → Nat) : Prop :=
  ∀ n ∈ serviceNames p, ∀ d ∈ deps p n, rank d < rank n

/-- Acyclicity of the depends_on graph, by rank function. -/
def Acyclic (p : Project) : Prop :=
  ∃ rank : String → Nat, RankOk p rank

/-- Every depends_on entry names a service defined in the project. -/
def DepsDefined (p : Project) : Prop :=
  ∀ n ∈ serviceNames p, ∀ d ∈ deps p n, d ∈ serviceNames p

/-- Specification of one `visit` call at a given fuel: it preserves the
invariant, only grows the visited set, only appends to the order, and
marks the visited name. -/
def VisitCorrect (p : Project) (fuel : Nat) : Prop :=
  ∀ (name : String) (A : List String) (s : DfsState),
    Inv A s → name ∈ allNames p → unvisited p s.visited ≤ fuel →
    Inv A (visit p fuel name s) ∧
    (∀ x ∈ s.visited, x ∈ (visit p fuel name s).visited) ∧
    (∃ ext, (visit p fuel name s).order = s.order ++ ext) ∧
    name ∈ (visit p fuel name s).visited

/-- Specification of the topological property of one `visit` call: under a
rank function decreasing along edges, and with the visited name ranked
below the whole stack, the order stays topological. -/
def VisitTopo (p : Project) (rank : String → Nat) (fuel : Nat) : Prop :=
  ∀ (name : String) (A : List String) (s : DfsState),
    Inv A s → Topo p s.order → name ∈ allNames p →
    unvisited p s.visited ≤ fuel → (∀ a ∈ A, rank name < rank a) →
    Topo p (visit p fuel name s).order

/-! ## Lemmas about the lookup and the name universe -/

lemma deps_eq_nil_of_not_mem {p : Project} {n : String}
    (h : n ∉ serviceNames p) : deps p n = [] := by
  unfold deps
  cases hf : p.services.find? (fun e => e.fst = n) with
  | none => rfl
  | some e =>
    exfalso
    have he := List.mem_of_find?_eq_some hf
    have hp : e.fst = n := by simpa using List.find?_some hf
    exact h (hp ▸ List.mem_map_of_mem Prod.fst he)

lemma mem_serviceNames_of_deps_ne {p : Project} {n : String}
    (h : deps p n ≠ []) : n ∈ serviceNames p := by
  by_contra hc
  exact h (deps_eq_nil_of_not_mem hc)

lemma serviceNames_subset_allNames (p : Project) :
    ∀ n ∈ serviceNames p, n ∈ allNames p := by
  intro n hn
  exact List.mem_append_left _ hn

lemma deps_subset_allNames (p : Project) (n : String) :
    ∀ d ∈ deps p n, d ∈ allNames p := by
  intro d hd
  have hne : deps p n ≠ [] := by
    intro h
    rw [h] at hd
    exact absurd hd (List.not_mem_nil d)
  have hn : n ∈ serviceNames p := mem_serviceNames_of_deps_ne hne
  refine List.mem_append_right _ ?_
  exact List.mem_flatten.mpr ⟨deps p n, List.mem_map_of_mem _ hn, hd⟩

/-! ## Lemmas about the fuel measure -/

lemma unvisited_le_of_subset (p : Project) {v w : List String}
    (h : ∀ x ∈ v, x ∈ w) : unvisited p w ≤ unvisited p v := by
  apply Finset.card_le_card
  exact Finset.sdiff_subset_sdiff (Finset.Subset.refl _)
    (fun x hx => List.mem_toFinset.mpr (h x (List.mem_toFinset.mp hx)))

lemma unvisited_cons_lt (p : Project) {v : List String} {n : String}
    (hn : n ∈ allNames p) (hnv : n ∉ v) :
    unvisited p (n :: v) < unvisited p v := by
  unfold unvisited
  have hmem : n ∈ (allNames p).toFinset \ v.toFinset :=
    Finset.mem_sdiff.mpr ⟨List.mem_toFinset.mpr hn,
      fun h => hnv (List.mem_toFinset.mp h)⟩
  rw [List.toFinset_cons, Finset.sdiff_insert]
  exact Finset.card_erase_lt_of_mem hmem

lemma unvisited_nil_le (p : Project) :
    unvisited p ([] : List String) ≤ totalFuel p := by
  unfold unvisited totalFuel
  simp only [List.toFinset_nil, Finset.sdiff_empty]
  exact le_trans (List.toFinset_card_le _) (Nat.le_succ _)

/-! ## The traversal invariant -/

lemma inv_push {A : List String} {s : DfsState} {name : String}
    (hInv : Inv A s) (hnv : name ∉ s.visited) :
    Inv (name :: A) ⟨name :: s.visited, s.order⟩ where
  nodup := hInv.nodup
  order_vis := fun x hx => List.mem_cons_of_mem _ (hInv.order_vis x hx)
  vis_order := by
    intro x hx
    rcases List.mem_cons.mp hx with rfl | hx2
    · exact Or.inr (List.mem_cons_self _ _)
    · rcases hInv.vis_order x hx2 with h | h
      · exact Or.inl h
      · exact Or.inr (List.mem_cons_of_mem _ h)
  order_stack := by
    intro x hx hmem
    rcases List.mem_cons.mp hmem with rfl | h2
    · exact hnv (hInv.order_vis x hx)
    · exact hInv.order_stack x hx h2
  stack_vis := by
    intro a ha
    rcases List.mem_cons.mp ha with rfl | h2
    · exact List.mem_cons_self _ _
    · exact List.mem_cons_of_mem _ (hInv.stack_vis a h2)

lemma foldVisit_correct (p : Project) (fuel : Nat) (hv : VisitCorrect p fuel) :
    ∀ (ds : List String) (A : List String) (s : DfsState),
      Inv A s → (∀ d ∈ ds, d ∈ allNames p) → unvisited p s.visited ≤ fuel →
      Inv A (ds.foldl (fun acc d => visit p fuel d acc) s) ∧
      (∀ x ∈ s.visited, x ∈ (ds.foldl (fun acc d => visit p fuel d acc) s).visited) ∧
      (∃ ext, (ds.foldl (fun acc d => visit p fuel d acc) s).order = s.order ++ ext) ∧
      (∀ d ∈ ds, d ∈ (ds.foldl (fun acc d => visit p fuel d acc) s).visited) := by
  intro ds
  induction ds with
  | nil =>
    intro A s h1 _ _
    exact ⟨h1, fun x hx => hx, ⟨[], by simp⟩, by simp⟩
  | cons d ds ih =>
    intro A s h1 h2 h3
    simp only [List.foldl_cons]
    obtain ⟨hI, hmono, ⟨e1, he1⟩, hdv⟩ := hv d A s h1 (h2 d (by simp)) h3
    have h3b : unvisited p (visit p fuel d s).visited ≤ fuel :=
      le_trans (unvisited_le_of_subset p hmono) h3
    obtain ⟨hI2, hmono2, ⟨e2, he2⟩, hall⟩ :=
      ih A _ hI (fun x hx => h2 x (List.mem_cons_of_mem _ hx)) h3b
    refine ⟨hI2, fun x hx => hmono2 _ (hmono _ hx),
      ⟨e1 ++ e2, by rw [he2, he1, List.append_assoc]⟩, ?_⟩
    intro x hx
    rcases List.mem_cons.mp hx with rfl | hx2
    · exact hmono2 _ hdv
    · exact hall x hx2

theorem visit_correct (p : Project) : ∀ fuel, VisitCorrect p fuel := by
  intro fuel
  induction fuel with
  | zero =>
    intro name A s hInv hname hfuel
    have h0 : unvisited p s.visited = 0 := Nat.le_zero.mp hfuel
    have hsub : (allNames p).toFinset \ s.visited.toFinset = ∅ :=
      Finset.card_eq_zero.mp h0
    have hin : name ∈ s.visited := by
      by_contra hc
      have hm : name ∈ (allNames p).toFinset \ s.visited.toFinset :=
        Finset.mem_sdiff.mpr ⟨List.mem_toFinset.mpr hname,
          fun h => hc (List.mem_toFinset.mp h)⟩
      rw [hsub] at hm
      exact absurd hm (Finset.not_mem_empty name)
    exact ⟨hInv, fun x hx => hx, ⟨[], by simp [visit]⟩, hin⟩
  | succ fuel ih =>
    intro name A s hInv hname hfuel
    by_cases hvis : name ∈ s.visited
    · have heq : visit p (fuel + 1) name s = s := by
        simp [visit, hvis]
      rw [heq]
      exact ⟨hInv, fun x hx => hx, ⟨[], by simp⟩, hvis⟩
    · have hstep : visit p (fuel + 1) name s =
          ⟨((deps p name).foldl (fun acc d => visit p fuel d acc)
              ⟨name :: s.visited, s.order⟩).visited,
           ((deps p name).foldl (fun acc d => visit p fuel d acc)
              ⟨name :: s.visited, s.order⟩).order ++ [name]⟩ := by
        simp [visit, hvis]
      have hInv1 : Inv (name :: A) ⟨name :: s.visited, s.order⟩ :=
        inv_push hInv hvis
      have hfuel1 : unvisited p (name :: s.visited) ≤ fuel := by
        have hlt := unvisited_cons_lt p hname hvis
        omega
      obtain ⟨hI2, hmono2, ⟨ext, hext⟩, hdeps2⟩ :=
        foldVisit_correct p fuel ih (deps p name) (name :: A)
          ⟨name :: s.visited, s.order⟩ hInv1
          (fun d hd => deps_subset_allNames p name d hd) hfuel1
    -- name the folded state
      rw [hstep]
      set s2 := (deps p name).foldl (fun acc d => visit p fuel d acc)
        ⟨name :: s.visited, s.order⟩ with hs2
      have hnameVis2 : name ∈ s2.visited :=
        hmono2 name (List.mem_cons_self _ _)
      have hnameOrd2 : name ∉ s2.order := fun h =>
        hI2.order_stack name h (List.mem_cons_self _ _)
      have hnameA : name ∉ A := fun h => hvis (hInv.stack_vis name h)
      refine ⟨?_, ?_, ?_, ?_⟩
      · refine ⟨?_, ?_, ?_, ?_, ?_⟩
        · rw [List.nodup_append]
          exact ⟨hI2.nodup, List.nodup_singleton name,
            fun a ha hb => hnameOrd2 ((List.mem_singleton.mp hb) ▸ ha)⟩
        · intro x hx
          rcases List.mem_append.mp hx with h | h
          · exact hI2.order_vis x h
          · exact (List.mem_singleton.mp h) ▸ hnameVis2
        · intro x hx
          rcases hI2.vis_order x hx with h | h
          · exact Or.inl (List.mem_append_left _ h)
          · rcases List.mem_cons.mp h with rfl | h2
            · exact Or.inl (List.mem_append_right _ (List.mem_singleton.mpr rfl))
            · exact Or.inr h2
        · intro x hx
          rcases List.mem_append.mp hx with h | h
          · exact fun hA =>
              hI2.order_stack x h (List.mem_cons_of_mem _ hA)
          · exact (List.mem_singleton.mp h) ▸ hnameA
        · intro a ha
          exact hmono2 a (List.mem_cons_of_mem _ (hInv.stack_vis a ha))
      · intro x hx
        exact hmono2 x (List.mem_cons_of_mem _ hx)
      · exact ⟨ext ++ [name], by rw [hext]; simp [List.append_assoc]⟩
      · exact hnameVis2

/-! ## The topological property of the traversal -/

lemma before_append_right {l : List String} {a b : String}
    (h : Before l a b) (t : List String) : Before (l ++ t) a b := by
  obtain ⟨l1, l2, rfl, ha, hb⟩ := h
  exact ⟨l1, l2 ++ t, by rw [List.append_assoc], ha, List.mem_append_left t hb⟩

lemma rankOk_forall {p : Project} {rank : String → Nat} (h : RankOk p rank) :
    ∀ n, ∀ d ∈ deps p n, rank d < rank n := by
  intro n d hd
  by_cases hn : n ∈ serviceNames p
  · exact h n hn d hd
  · rw [deps_eq_nil_of_not_mem hn] at hd
    exact absurd hd (List.not_mem_nil d)

lemma foldVisit_topo (p : Project) (rank : String → Nat) (fuel : Nat)
    (hv : VisitCorrect p fuel) (ht : VisitTopo p rank fuel) :
    ∀ (ds : List String) (A : List String) (s : DfsState),
      Inv A s → Topo p s.order → (∀ d ∈ ds, d ∈ allNames p) →
      unvisited p s.visited ≤ fuel →
      (∀ d ∈ ds, ∀ a ∈ A, rank d < rank a) →
      Topo p ((ds.foldl (fun acc d => visit p fuel d acc) s).order) := by
  intro ds
  induction ds with
  | nil =>
    intro A s _ h2 _ _ _
    exact h2
  | cons d ds ih =>
    intro A s h1 h2 h3 h4 h5
    simp only [List.foldl_cons]
    have htopo1 : Topo p (visit p fuel d s).order :=
      ht d A s h1 h2 (h3 d (by simp)) h4 (h5 d (by simp))
    obtain ⟨hI1, hmono1, _, _⟩ := hv d A s h1 (h3 d (by simp)) h4
    have h4b : unvisited p (visit p fuel d s).visited ≤ fuel :=
      le_trans (unvisited_le_of_subset p hmono1) h4
    exact ih A _ hI1 htopo1 (fun x hx => h3 x (List.mem_cons_of_mem _ hx)) h4b
      (fun x hx => h5 x (List.mem_cons_of_mem _ hx))

theorem visit_topo (p : Project) (rank : String → Nat)
    (hR : ∀ n, ∀ d ∈ deps p n, rank d < rank n) :
    ∀ fuel, VisitTopo p rank fuel := by
  intro fuel
  induction fuel with
  | zero =>
    intro name A s _ h2 _ _ _
    exact h2
  | succ fuel ih =>
    intro name A s hInv htopo hname hfuel hstack
    by_cases hvis : name ∈ s.visited
    · have heq : visit p (fuel + 1) name s = s := by
        simp [visit, hvis]
      rw [heq]
      exact htopo
    · have hstep : visit p (fuel + 1) name s =
          ⟨((deps p name).foldl (fun acc d => visit p fuel d acc)
              ⟨name :: s.visited, s.order⟩).visited,
           ((deps p name).foldl (fun acc d => visit p fuel d acc)
              ⟨name :: s.visited, s.order⟩).order ++ [name]⟩ := by
        simp [visit, hvis]
      have hInv1 : Inv (name :: A) ⟨name :: s.visited, s.order⟩ :=
        inv_push hInv hvis
      have hfuel1 : unvisited p (name :: s.visited) ≤ fuel := by
        have hlt := unvisited_cons_lt p hname hvis
        omega
      have hstack1 : ∀ d ∈ deps p name, ∀ a ∈ name :: A, rank d < rank a := by
        intro d hd a ha
        rcases List.mem_cons.mp ha with heq | h2
        · rw [heq]; exact hR name d hd
        · exact lt_trans (hR name d hd) (hstack a h2)
      have htopo2 : Topo p ((deps p name).foldl (fun acc d => visit p fuel d acc)
          ⟨name :: s.visited, s.order⟩).order :=
        foldVisit_topo p rank fuel (visit_correct p fuel) ih (deps p name)
          (name :: A) ⟨name :: s.visited, s.order⟩ hInv1 htopo
          (fun d hd => deps_subset_allNames p name d hd) hfuel1 hstack1
      obtain ⟨hI2, hmono2, _, hdeps2⟩ :=
        foldVisit_correct p fuel (visit_correct p fuel) (deps p name) (name :: A)
          ⟨name :: s.visited, s.order⟩ hInv1
          (fun d hd => deps_subset_allNames p name d hd) hfuel1
      rw [hstep]
      set s2 := (deps p name).foldl (fun acc d => visit p fuel d acc)
        ⟨name :: s.visited, s.order⟩ with hs2
      intro x hx d hd
      rcases List.mem_append.mp hx with hxo | hxn
      · exact before_append_right (htopo2 x hxo d hd) [name]
      · have hxeq : x = name := List.mem_singleton.mp hxn
        have hdn : d ∈ deps p name := hxeq ▸ hd
        have hdv : d ∈ s2.visited := hdeps2 d hdn
        rcases hI2.vis_order d hdv with hdo | hdA
        · exact ⟨s2.order, [name], rfl, hdo, hxn⟩
        · rcases List.mem_cons.mp hdA with hdeq | hdA2
          · have h1 : rank d < rank name := hR name d hdn
            rw [hdeq] at h1
            exact absurd h1 (lt_irrefl _)
          · have h1 : rank d < rank name := hR name d hdn
            exact absurd h1 (not_lt.mpr (le_of_lt (hstack d hdA2)))

/-! ## Assembled facts about getServiceOrder -/

lemma sortStrings_perm (l : List String) : (sortStrings l).Perm l :=
  List.perm_insertionSort _ l

lemma mem_sortStrings {l : List String} {x : String} :
    x ∈ sortStrings l ↔ x ∈ l :=
  (sortStrings_perm l).mem_iff

lemma inv_init : Inv [] ⟨[], []⟩ where
  nodup := List.nodup_nil
  order_vis := by simp
  vis_order := by simp
  order_stack := by simp
  stack_vis := by simp

lemma getServiceOrder_nodup_mem (p : Project) :
    (getServiceOrder p).Nodup ∧ ∀ n ∈ serviceNames p, n ∈ getServiceOrder p := by
  have hall : ∀ d ∈ sortStrings (serviceNames p), d ∈ allNames p := fun d hd =>
    serviceNames_subset_allNames p d (mem_sortStrings.mp hd)
  obtain ⟨hI, _, _, hv⟩ :=
    foldVisit_correct p (totalFuel p) (visit_correct p _)
      (sortStrings (serviceNames p)) [] ⟨[], []⟩ inv_init hall (unvisited_nil_le p)
  constructor
  · exact hI.nodup
  · intro n hn
    have hnv := hv n (mem_sortStrings.mpr hn)
    rcases hI.vis_order n hnv with h | h
    · exact h
    · exact absurd h (List.not_mem_nil n)

lemma getServiceOrder_topo (p : Project) {rank : String → Nat}
    (hR : RankOk p rank) : Topo p (getServiceOrder p) := by
  have hall : ∀ d ∈ sortStrings (serviceNames p), d ∈ allNames p := fun d hd =>
    serviceNames_subset_allNames p d (mem_sortStrings.mp hd)
  exact foldVisit_topo p rank (totalFuel p) (visit_correct p _)
    (visit_topo p rank (rankOk_forall hR) _) (sortStrings (serviceNames p))
    [] ⟨[], []⟩ inv_init (by intro x hx; simp at hx) hall (unvisited_nil_le p)
    (by intro d _ a ha; exact absurd ha (List.not_mem_nil a))

/-! ## Properties of the sorting order -/

lemma lexLe_total : ∀ as bs : List Char, lexLe as bs = true ∨ lexLe bs as = true := by
  intro as bs
  induction as generalizing bs with
  | nil => exact Or.inl rfl
  | cons a as ih =>
    cases bs with
    | nil => exact Or.inr rfl
    | cons b bs =>
      by_cases hab : a = b
      · subst hab
        rcases ih bs with h | h
        · exact Or.inl (by simp [lexLe, h])
        · exact Or.inr (by simp [lexLe, h])
      · have hba : b ≠ a := Ne.symm hab
        rcases lt_or_gt_of_ne hab with h | h
        · exact Or.inl (by simp [lexLe, hab]; exact h)
        · exact Or.inr (by simp [lexLe, hba]; exact h)

lemma lexLe_trans : ∀ as bs cs : List Char,
    lexLe as bs = true → lexLe bs cs = true → lexLe as cs = true := by
  intro as bs cs
  induction as generalizing bs cs with
  | nil => intro _ _; rfl
  | cons a as ih =>
    cases bs with
    | nil => intro h1; exact absurd h1 (by simp [lexLe])
    | cons b bs =>
      cases cs with
      | nil => intro _ h2; exact absurd h2 (by simp [lexLe])
      | cons c cs =>
        intro h1 h2
        by_cases hab : a = b
        · subst hab
          simp only [lexLe, if_pos rfl] at h1
          by_cases hac : a = c
          · subst hac
            simp only [lexLe, if_pos rfl] at h2 ⊢
            exact ih bs cs h1 h2
          · simp only [lexLe, if_neg hac] at h2 ⊢
            exact h2
        · simp only [lexLe, if_neg hab, decide_eq_true_eq] at h1
          by_cases hbc : b = c
          · subst hbc
            simp only [lexLe, if_neg hab, decide_eq_true_eq]
            exact h1
          · simp only [lexLe, if_neg hbc, decide_eq_true_eq] at h2
            have hac : a < c := lt_trans h1 h2
            simp only [lexLe, if_neg (ne_of_lt hac), decide_eq_true_eq]
            exact hac

lemma lexLe_antisymm : ∀ as bs : List Char,
    lexLe as bs = true → lexLe bs as = true → as = bs := by
  intro as bs
  induction as generalizing bs with
  | nil =>
    cases bs with
    | nil => intro _ _; rfl
    | cons b bs => intro _ h2; exact absurd h2 (by simp [lexLe])
  | cons a as ih =>
    cases bs with
    | nil => intro h1; exact absurd h1 (by simp [lexLe])
    | cons b bs =>
      intro h1 h2
      by_cases hab : a = b
      · subst hab
        simp only [lexLe, if_pos rfl] at h1 h2
        rw [ih bs h1 h2]
      · have hba : b ≠ a := Ne.symm hab
        simp only [lexLe, if_neg hab, decide_eq_true_eq] at h1
        simp only [lexLe, if_neg hba, decide_eq_true_eq] at h2
        exact absurd h2 (lt_asymm h1)

instance : IsTotal String strLe :=
  ⟨fun a b => lexLe_total a.data b.data⟩

instance : IsTrans String strLe :=
  ⟨fun a b c h1 h2 => lexLe_trans a.data b.data c.data h1 h2⟩

instance : IsAntisymm String strLe :=
  ⟨fun a b h1 h2 => congrArg String.mk (lexLe_antisymm a.data b.data h1 h2)⟩

lemma sortStrings_sorted (l : List String) : List.Sorted strLe (sortStrings l) :=
  List.sorted_insertionSort strLe l

lemma sortStrings_eq_of_perm {l1 l2 : List String} (h : l1.Perm l2) :
    sortStrings l1 = sortStrings l2 :=
  List.eq_of_perm_of_sorted
    ((sortStrings_perm l1).trans (h.trans (sortStrings_perm l2).symm))
    (sortStrings_sorted l1) (sortStrings_sorted l2)

/-! ## The traversal depends on a project only through its lookup map -/

lemma foldVisit_congr {p1 p2 : Project} {fuel : Nat}
    (hv : ∀ name s, visit p1 fuel name s = visit p2 fuel name s) :
    ∀ (l : List String) (s : DfsState),
      l.foldl (fun acc d => visit p1 fuel d acc) s =
      l.foldl (fun acc d => visit p2 fuel d acc) s := by
  intro l
  induction l with
  | nil => intro s; rfl
  | cons d l ih =>
    intro s
    simp only [List.foldl_cons]
    rw [hv d s]
    exact ih _

lemma visit_congr (p1 p2 : Project) (h : ∀ n, deps p1 n = deps p2 n) :
    ∀ fuel name s, visit p1 fuel name s = visit p2 fuel name s := by
  intro fuel
  induction fuel with
  | zero => intro name s; rfl
  | succ fuel ih =>
    intro name s
    by_cases hv : name ∈ s.visited
    · simp [visit, hv]
    · have e1 : visit p1 (fuel + 1) name s =
          ⟨((deps p1 name).foldl (fun acc d => visit p1 fuel d acc)
              ⟨name :: s.visited, s.order⟩).visited,
           ((deps p1 name).foldl (fun acc d => visit p1 fuel d acc)
              ⟨name :: s.visited, s.order⟩).order ++ [name]⟩ := by
        simp [visit, hv]
      have e2 : visit p2 (fuel + 1) name s =
          ⟨((deps p2 name).foldl (fun acc d => visit p2 fuel d acc)
              ⟨name :: s.visited, s.order⟩).visited,
           ((deps p2 name).foldl (fun acc d => visit p2 fuel d acc)
              ⟨name :: s.visited, s.order⟩).order ++ [name]⟩ := by
        simp [visit, hv]
      rw [e1, e2, h name, foldVisit_congr (fun n s => ih n s)]

lemma length_allNames (p : Project) : (allNames p).length =
    (serviceNames p).length +
      ((serviceNames p).map (fun n => (deps p n).length)).sum := by
  unfold allNames
  rw [List.length_append, List.length_flatten, List.map_map]
  rfl

lemma totalFuel_congr {p1 p2 : Project}
    (hperm : (serviceNames p1).Perm (serviceNames p2))
    (hdeps : ∀ n, deps p1 n = deps p2 n) : totalFuel p1 = totalFuel p2 := by
  unfold totalFuel
  rw [length_allNames, length_allNames, hperm.length_eq]
  have h1 : (serviceNames p1).map (fun n => (deps p1 n).length) =
      (serviceNames p1).map (fun n => (deps p2 n).length) :=
    List.map_congr_left (fun n _ => by rw [hdeps n])
  have hsum : ((serviceNames p1).map (fun n => (deps p1 n).length)).sum =
      ((serviceNames p2).map (fun n => (deps p2 n).length)).sum := by
    rw [h1]
    exact (hperm.map (fun n => (deps p2 n).length)).sum_eq
  omega

lemma getServiceOrder_congr {p1 p2 : Project}
    (hperm : (serviceNames p1).Perm (serviceNames p2))
    (hdeps : ∀ n, deps p1 n = deps p2 n) :
    getServiceOrder p1 = getServiceOrder p2 := by
  unfold getServiceOrder
  rw [sortStrings_eq_of_perm hperm, totalFuel_congr hperm hdeps,
    foldVisit_congr (fun n s => visit_congr p1 p2 hdeps (totalFuel p2) n s)]

lemma deps_eq_of_perm_le_one {p1 p2 : Project}
    (hperm : (serviceNames p1).Perm (serviceNames p2))
    (hsame : ∀ n ∈ serviceNames p1, (deps p1 n).Perm (deps p2 n))
    (hone : ∀ n ∈ serviceNames p1, (deps p1 n).length ≤ 1) :
    ∀ n, deps p1 n = deps p2 n := by
  intro n
  by_cases hn : n ∈ serviceNames p1
  · have hp := hsame n hn
    have hl := hone n hn
    cases hd : deps p1 n with
    | nil =>
      rw [hd] at hp
      rw [(hp.symm).eq_nil]
    | cons a t =>
      cases t with
      | nil =>
        rw [hd] at hp
        rw [List.perm_singleton.mp hp.symm]
      | cons b t2 =>
        rw [hd] at hl
        simp at hl
  · have h1 : deps p1 n = [] := deps_eq_nil_of_not_mem hn
    have hn2 : n ∉ serviceNames p2 := fun h => hn (hperm.mem_iff.mpr h)
    rw [h1, deps_eq_nil_of_not_mem hn2]

/-! ## Lemmas about the Create operation trace -/

lemma seqSteps_no_err (steps : List (List DockerOp × Bool × String))
    (h : ∀ st ∈ steps, st.2.1 = false) :
    seqSteps steps = ((steps.map (fun st => st.1)).flatten, none) := by
  induction steps with
  | nil => rfl
  | cons st rest ih =>
    obtain ⟨ops, err, title⟩ := st
    have h0 : err = false := h (ops, err, title) (List.mem_cons_self _ _)
    subst h0
    simp only [seqSteps, if_neg (by simp : ¬(false = true))]
    rw [ih (fun x hx => h x (List.mem_cons_of_mem _ hx))]
    simp

lemma startedServices_append (l1 l2 : List DockerOp) :
    startedServices (l1 ++ l2) = startedServices l1 ++ startedServices l2 :=
  List.filterMap_append l1 l2 _

lemma startedServices_networkStep (e : Engine) (pn n : String) (c : NetworkConf) :
    startedServices (createNetworkStep e pn n c).1 = [] := by
  unfold createNetworkStep
  by_cases h1 : c.external
  · simp [h1, startedServices]
  · by_cases h2 : e.netExists (pn ++ "_" ++ n)
    · simp [h1, h2, startedServices]
    · simp [h1, h2, startedServices]

lemma startedServices_volumeStep (e : Engine) (pn n : String) (c : VolumeConf) :
    startedServices (createVolumeStep e pn n c).1 = [] := by
  unfold createVolumeStep
  by_cases h1 : c.external
  · simp [h1, startedServices]
  · by_cases h2 : e.volExists (pn ++ "_" ++ n)
    · simp [h1, h2, startedServices]
    · simp [h1, h2, startedServices]

lemma startedServices_serviceStep (e : Engine) (pn s : String)
    (hc : e.ctrCreateErr s = false) :
    startedServices (createServiceStep e pn s).1 = [s] := by
  unfold createServiceStep
  by_cases h1 : e.ctrExists (pn ++ "-" ++ s ++ "-1")
  · simp [h1, startedServices]
  · simp [h1, hc, startedServices]

lemma startedServices_flatten_nil (L : List (List DockerOp))
    (h : ∀ l ∈ L, startedServices l = []) :
    startedServices L.flatten = [] := by
  induction L with
  | nil => rfl
  | cons l L ih =>
    rw [List.flatten_cons, startedServices_append, h l (by simp),
      ih (fun x hx => h x (List.mem_cons_of_mem _ hx))]
    rfl

lemma startedServices_flatten_services (e : Engine) (pn : String)
    (l : List String) (hc : ∀ s ∈ l, e.ctrCreateErr s = false) :
    startedServices ((l.map (fun s => (createServiceStep e pn s).1)).flatten) = l := by
  induction l with
  | nil => rfl
  | cons s l ih =>
    rw [List.map_cons, List.flatten_cons, startedServices_append,
      startedServices_serviceStep e pn s (hc s (by simp)),
      ih (fun x hx => hc x (List.mem_cons_of_mem _ hx))]
    rfl

lemma networkStep_flag (e : Engine) (pn n : String) (c : NetworkConf)
    (h : ∀ x, e.netCreateErr x = false) :
    (createNetworkStep e pn n c).2 = false := by
  unfold createNetworkStep
  by_cases h1 : c.external
  · simp [h1]
  · by_cases h2 : e.netExists (pn ++ "_" ++ n)
    · simp [h1, h2]
    · simp [h1, h2, h]

lemma volumeStep_flag (e : Engine) (pn n : String) (c : VolumeConf)
    (h : ∀ x, e.volCreateErr x = false) :
    (createVolumeStep e pn n c).2 = false := by
  unfold createVolumeStep
  by_cases h1 : c.external
  · simp [h1]
  · by_cases h2 : e.volExists (pn ++ "_" ++ n)
    · simp [h1, h2]
    · simp [h1, h2, h]

lemma serviceStep_flag (e : Engine) (pn s : String)
    (hc : e.ctrCreateErr s = false) (hs : e.ctrStartErr s = false) :
    (createServiceStep e pn s).2 = false := by
  unfold createServiceStep
  by_cases h1 : e.ctrExists (pn ++ "-" ++ s ++ "-1")
  · simp [h1, hs]
  · simp [h1, hc, hs]

lemma composeCreate_started (e : Engine) (data : ComposeModel)
    (project : Project) (hash : String)
    (hsome : data.composeFile ≠ none ∨ data.composeContent ≠ none)
    (hnet : ∀ x, e.netCreateErr x = false)
    (hvol : ∀ x, e.volCreateErr x = false)
    (hctr : ∀ x, e.ctrCreateErr x = false)
    (hstart : ∀ x, e.ctrStartErr x = false) :
    startedServices (composeCreate e data (.ok project) hash).ops =
      getServiceOrder project := by
  have hguard : (data.composeFile.isNone && data.composeContent.isNone) = false := by
    rcases hsome with h | h
    · have h1 : data.composeFile.isNone = false := by
        simp [Option.isNone_iff_eq_none, h, Option.isSome_iff_ne_none]
      simp [h1]
    · have h1 : data.composeContent.isNone = false := by
        simp [Option.isNone_iff_eq_none, h, Option.isSome_iff_ne_none]
      simp [h1]
  unfold composeCreate
  rw [hguard]
  simp only [Bool.false_eq_true, if_neg (by exact fun h => h)]
  have hflags : ∀ st ∈
      (project.networks.map (fun nc =>
        ((createNetworkStep e data.projectName nc.1 nc.2).1,
         (createNetworkStep e data.projectName nc.1 nc.2).2,
         "Network Create Error"))
      ++ project.volumes.map (fun vc =>
        ((createVolumeStep e data.projectName vc.1 vc.2).1,
         (createVolumeStep e data.projectName vc.1 vc.2).2,
         "Volume Create Error"))
      ++ (getServiceOrder project).map (fun sname =>
        ((createServiceStep e data.projectName sname).1,
         (createServiceStep e data.projectName sname).2,
         "Service Create Error"))), st.2.1 = false := by
    intro st hst
    rcases List.mem_append.mp hst with hst2 | hsvc
    · rcases List.mem_append.mp hst2 with hn | hv
      · obtain ⟨nc, _, rfl⟩ := List.mem_map.mp hn
        exact networkStep_flag e data.projectName nc.1 nc.2 hnet
      · obtain ⟨vc, _, rfl⟩ := List.mem_map.mp hv
        exact volumeStep_flag e data.projectName vc.1 vc.2 hvol
    · obtain ⟨sname, _, rfl⟩ := List.mem_map.mp hsvc
      exact serviceStep_flag e data.projectName sname (hctr sname) (hstart sname)
  rw [seqSteps_no_err _ hflags]
  simp only [composeCreateFinish, List.map_append, List.map_map,
    List.flatten_append]
  rw [startedServices_append, startedServices_append, startedServices_append]
  have hn0 : startedServices ((project.networks.map
      ((fun st : List DockerOp × Bool × String => st.1) ∘ (fun nc =>
        ((createNetworkStep e data.projectName nc.1 nc.2).1,
         (createNetworkStep e data.projectName nc.1 nc.2).2,
         "Network Create Error")))).flatten) = [] := by
    apply startedServices_flatten_nil
    intro l hl
    obtain ⟨nc, _, rfl⟩ := List.mem_map.mp hl
    exact startedServices_networkStep e data.projectName nc.1 nc.2
  have hv0 : startedServices ((project.volumes.map
      ((fun st : List DockerOp × Bool × String => st.1) ∘ (fun vc =>
        ((createVolumeStep e data.projectName vc.1 vc.2).1,
         (createVolumeStep e data.projectName vc.1 vc.2).2,
         "Volume Create Error")))).flatten) = [] := by
    apply startedServices_flatten_nil
    intro l hl
    obtain ⟨vc, _, rfl⟩ := List.mem_map.mp hl
    exact startedServices_volumeStep e data.projectName vc.1 vc.2
  have hs1 : startedServices (((getServiceOrder project).map
      ((fun st : List DockerOp × Bool × String => st.1) ∘ (fun sname =>
        ((createServiceStep e data.projectName sname).1,
         (createServiceStep e data.projectName sname).2,
         "Service Create Error")))).flatten) = getServiceOrder project := by
    have : ((fun st : List DockerOp × Bool × String => st.1) ∘ (fun sname =>
        ((createServiceStep e data.projectName sname).1,
         (createServiceStep e data.projectName sname).2,
         "Service Create Error"))) =
        fun sname => (createServiceStep e data.projectName sname).1 := rfl
    rw [this]
    exact startedServices_flatten_services e data.projectName _
      (fun s _ => hctr s)
  rw [hn0, hv0, hs1]
  simp [startedServices]

/-! ## Request accounting for Create -/

lemma seqSteps_len_le (steps : List (List DockerOp × Bool × String)) :
    (seqSteps steps).1.length ≤ ((steps.map (fun st => st.1.length)).sum) := by
  induction steps with
  | nil => simp [seqSteps]
  | cons st rest ih =>
    obtain ⟨ops, err, title⟩ := st
    by_cases he : err = true
    · simp only [seqSteps, if_pos he, List.map_cons, List.sum_cons]
      exact Nat.le_add_right_of_le (Nat.le_refl _)
    · have he2 : err = false := by
        cases err
        · rfl
        · exact absurd rfl he
      subst he2
      simp only [seqSteps, if_neg (by simp : ¬(false = true)), List.map_cons,
        List.sum_cons, List.length_append]
      omega

lemma sum_map_le_mul {α : Type} (l : List α) (f : α → Nat) (k : Nat)
    (h : ∀ x ∈ l, f x ≤ k) : (l.map f).sum ≤ k * l.length := by
  induction l with
  | nil => simp
  | cons a l ih =>
    simp only [List.map_cons, List.sum_cons, List.length_cons]
    have h1 : f a ≤ k := h a (by simp)
    have h2 : (l.map f).sum ≤ k * l.length :=
      ih (fun x hx => h x (List.mem_cons_of_mem _ hx))
    have : k * (l.length + 1) = k * l.length + k := by ring
    omega

lemma networkStep_len_le (e : Engine) (pn n : String) (c : NetworkConf) :
    (createNetworkStep e pn n c).1.length ≤ 2 := by
  unfold createNetworkStep
  by_cases h1 : c.external
  · simp [h1]
  · by_cases h2 : e.netExists (pn ++ "_" ++ n)
    · simp [h1, h2]
    · simp [h1, h2]

lemma volumeStep_len_le (e : Engine) (pn n : String) (c : VolumeConf) :
    (createVolumeStep e pn n c).1.length ≤ 2 := by
  unfold createVolumeStep
  by_cases h1 : c.external
  · simp [h1]
  · by_cases h2 : e.volExists (pn ++ "_" ++ n)
    · simp [h1, h2]
    · simp [h1, h2]

lemma serviceStep_len_le (e : Engine) (pn s : String) :
    (createServiceStep e pn s).1.length ≤ 3 := by
  unfold createServiceStep
  by_cases h1 : e.ctrExists (pn ++ "-" ++ s ++ "-1")
  · simp [h1]
  · by_cases h2 : e.ctrCreateErr s
    · simp [h1, h2]
    · simp [h1, h2]

lemma composeCreateFinish_ops_le (e : Engine) (data : ComposeModel)
    (project : Project) (hash : String) (r : List DockerOp × Option String) :
    (composeCreateFinish e data project hash r).ops.length ≤ r.1.length + 1 := by
  rcases r with ⟨ops, oerr⟩
  cases oerr with
  | none => simp [composeCreateFinish]
  | some t => simp [composeCreateFinish]

lemma composeCreate_ops_bound (e : Engine) (data : ComposeModel)
    (project : Project) (hash : String) :
    (composeCreate e data (.ok project) hash).ops.length ≤
      2 * project.networks.length + 2 * project.volumes.length +
        3 * (getServiceOrder project).length + 1 := by
  unfold composeCreate
  by_cases hg : (data.composeFile.isNone && data.composeContent.isNone) = true
  · simp [hg]
  · rw [if_neg hg]
    refine le_trans (composeCreateFinish_ops_le e data project hash _) ?_
    refine le_trans (Nat.add_le_add_right (seqSteps_len_le _) 1) ?_
    simp only [List.map_append, List.map_map, List.sum_append]
    have b1 : ((project.networks.map ((fun st : List DockerOp × Bool × String =>
        st.1.length) ∘ (fun nc =>
        ((createNetworkStep e data.projectName nc.1 nc.2).1,
         (createNetworkStep e data.projectName nc.1 nc.2).2,
         "Network Create Error")))).sum) ≤ 2 * project.networks.length := by
      apply sum_map_le_mul
      intro nc _
      exact networkStep_len_le e data.projectName nc.1 nc.2
    have b2 : ((project.volumes.map ((fun st : List DockerOp × Bool × String =>
        st.1.length) ∘ (fun vc =>
        ((createVolumeStep e data.projectName vc.1 vc.2).1,
         (createVolumeStep e data.projectName vc.1 vc.2).2,
         "Volume Create Error")))).sum) ≤ 2 * project.volumes.length := by
      apply sum_map_le_mul
      intro vc _
      exact volumeStep_len_le e data.projectName vc.1 vc.2
    have b3 : (((getServiceOrder project).map
        ((fun st : List DockerOp × Bool × String => st.1.length) ∘ (fun sname =>
        ((createServiceStep e data.projectName sname).1,
         (createServiceStep e data.projectName sname).2,
         "Service Create Error")))).sum) ≤
        3 * (getServiceOrder project).length := by
      apply sum_map_le_mul
      intro sname _
      exact serviceStep_len_le e data.projectName sname
    omega

/-! ## Lemmas about label-scoped Delete -/

lemma removeIds_eq_filter (objs : List LabeledObj) (ids : List String) :
    removeIds objs ids = objs.filter (fun o => !(ids.contains o.id)) := by
  induction ids generalizing objs with
  | nil => simp [removeIds]
  | cons i ids ih =>
    have hstep : removeIds objs (i :: ids) =
        removeIds (objs.filter (fun o => o.id ≠ i)) ids := rfl
    rw [hstep, ih, List.filter_filter]
    apply List.filter_congr
    intro o _
    simp only [List.contains_cons, Bool.not_or, Bool.and_comm]
    congr 1
    by_cases h : o.id = i
    · simp [h]
    · have h2 : ¬(i = o.id) := fun hh => h hh.symm
      simp [h, h2]

lemma filter_remove_of_nodup (objs : List LabeledObj) (pred : LabeledObj → Bool)
    (hnd : (objs.map (fun o => o.id)).Nodup) :
    objs.filter
      (fun o => !(((objs.filter pred).map (fun o => o.id)).contains o.id)) =
    objs.filter (fun o => !(pred o)) := by
  apply List.filter_congr
  intro o ho
  congr 1
  by_cases hp : pred o = true
  · have hmem : o.id ∈ (objs.filter pred).map (fun o => o.id) :=
      List.mem_map_of_mem _ (List.mem_filter.mpr ⟨ho, hp⟩)
    simp only [hp]
    simpa using hmem
  · have hp2 : pred o = false := by
      cases hpred : pred o
      · rfl
      · exact absurd hpred hp
    simp only [hp2]
    have hnot : o.id ∉ (objs.filter pred).map (fun o => o.id) := by
      intro hmem
      obtain ⟨o2, ho2f, hid⟩ := List.mem_map.mp hmem
      have ho2 : o2 ∈ objs := (List.mem_filter.mp ho2f).1
      have hpred2 : pred o2 = true := (List.mem_filter.mp ho2f).2
      have heq : o2 = o := List.inj_on_of_nodup_map hnd ho2 ho hid
      rw [heq] at hpred2
      exact absurd hpred2 hp
    simpa using hnot

lemma waitLoop_errors (polls : Nat → InspectResult) :
    ∀ b i, (waitLoop polls i b).errors = [] := by
  intro b
  induction b with
  | zero => intro i; rfl
  | succ b ih =>
    intro i
    cases hp : polls i with
    | err m => simp [waitLoop, hp, ih]
    | ok st =>
      cases st with
      | none => simp [waitLoop, hp]
      | some u =>
        cases u with
        | completed => simp [waitLoop, hp]
        | paused => simp [waitLoop, hp]
        | active tag => simp [waitLoop, hp, ih]

lemma waitLoop_inspects_le (polls : Nat → InspectResult) :
    ∀ b i, (waitLoop polls i b).inspects ≤ b := by
  intro b
  induction b with
  | zero => intro i; exact Nat.le_refl 0
  | succ b ih =>
    intro i
    cases hp : polls i with
    | err m =>
      simp only [waitLoop, hp]
      have := ih (i + 1)
      omega
    | ok st =>
      cases st with
      | none => simp [waitLoop, hp]
      | some u =>
        cases u with
        | completed => simp [waitLoop, hp]
        | paused => simp [waitLoop, hp]
        | active tag =>
          simp only [waitLoop, hp]
          have := ih (i + 1)
          omega

lemma waitLoop_timeout (polls : Nat → InspectResult) :
    ∀ b i, (∀ k, k < b → isTerminal (polls (i + k)) = false) →
      waitLoop polls i b = ⟨["Service Convergence Timeout"], [], b⟩ := by
  intro b
  induction b with
  | zero => intro i _; rfl
  | succ b ih =>
    intro i h
    have h0 : isTerminal (polls i) = false := by
      have := h 0 (Nat.succ_pos b)
      simpa using this
    have hrec : waitLoop polls (i + 1) b = ⟨["Service Convergence Timeout"], [], b⟩ := by
      apply ih
      intro k hk
      have := h (k + 1) (by omega)
      have harith : i + (k + 1) = i + 1 + k := by omega
      rw [harith] at this
      exact this
    cases hp : polls i with
    | err m => simp [waitLoop, hp, hrec]
    | ok st =>
      cases st with
      | none => rw [hp] at h0; simp [isTerminal] at h0
      | some u =>
        cases u with
        | completed => rw [hp] at h0; simp [isTerminal] at h0
        | paused => rw [hp] at h0; simp [isTerminal] at h0
        | active tag => simp [waitLoop, hp, hrec]

lemma waitLoop_first_terminal (polls : Nat → InspectResult) :
    ∀ j b i, j < b → isTerminal (polls (i + j)) = true →
      (∀ k, k < j → isTerminal (polls (i + k)) = false) →
      waitLoop polls i b = ⟨terminalWarnings (polls (i + j)), [], j + 1⟩ := by
  intro j
  induction j with
  | zero =>
    intro b i hb hterm _
    cases b with
    | zero => omega
    | succ b =>
      simp only [Nat.add_zero] at hterm
      cases hp : polls i with
      | err m => rw [hp] at hterm; simp [isTerminal] at hterm
      | ok st =>
        cases st with
        | none => simp [waitLoop, hp, terminalWarnings]
        | some u =>
          cases u with
          | completed => simp [waitLoop, hp, terminalWarnings]
          | paused => simp [waitLoop, hp, terminalWarnings]
          | active tag => rw [hp] at hterm; simp [isTerminal] at hterm
  | succ j ih =>
    intro b i hb hterm hbefore
    cases b with
    | zero => omega
    | succ b =>
      have h0 : isTerminal (polls i) = false := by
        have := hbefore 0 (Nat.succ_pos j)
        simpa using this
      have harith : i + (j + 1) = i + 1 + j := by omega
      have hrec : waitLoop polls (i + 1) b =
          ⟨terminalWarnings (polls (i + 1 + j)), [], j + 1⟩ := by
        apply ih b (i + 1) (by omega)
        · rw [← harith]; exact hterm
        · intro k hk
          have := hbefore (k + 1) (by omega)
          have ha2 : i + (k + 1) = i + 1 + k := by omega
          rw [ha2] at this
          exact this
      cases hp : polls i with
      | err m =>
        simp only [waitLoop, hp, hrec]
        rw [harith]
      | ok st =>
        cases st with
        | none => rw [hp] at h0; simp [isTerminal] at h0
        | some u =>
          cases u with
          | completed => rw [hp] at h0; simp [isTerminal] at h0
          | paused => rw [hp] at h0; simp [isTerminal] at h0
          | active tag =>
            simp only [waitLoop, hp, hrec]
            rw [harith]

lemma removeIds_filter_spec (objs : List LabeledObj) (pred : LabeledObj → Bool)
    (hnd : (objs.map (fun o => o.id)).Nodup) :
    removeIds objs ((objs.filter pred).map (fun o => o.id)) =
      objs.filter (fun o => !(pred o)) := by
  rw [removeIds_eq_filter]
  exact filter_remove_of_nodup objs pred hnd

lemma mem_stopRemoveOps {cs : List LabeledObj} {op : DockerOp}
    (h : op ∈ (cs.map (fun c => [DockerOp.containerStop c.id,
      DockerOp.containerRemove c.id])).flatten) :
    ∃ c ∈ cs, op = .containerStop c.id ∨ op = .containerRemove c.id := by
  obtain ⟨l, hl, hop⟩ := List.mem_flatten.mp h
  obtain ⟨c, hc, rfl⟩ := List.mem_map.mp hl
  rcases List.mem_cons.mp hop with h1 | h2
  · exact ⟨c, hc, Or.inl h1⟩
  · exact ⟨c, hc, Or.inr (List.mem_singleton.mp h2)⟩

/-! # The claims -/

/-- C1: for every compose project whose depends_on graph is acyclic and
whose depends_on entries all name defined services, getServiceOrder is a
topological order — every dependency appears strictly before its dependent,
each service appearing exactly once — and Create starts the service
containers in exactly that order. -/
theorem C1_topological_order (p : Project)
    (hacyc : Acyclic p) (_hdef : DepsDefined p) :
    ((getServiceOrder p).Nodup ∧
      (∀ n ∈ serviceNames p, n ∈ getServiceOrder p) ∧
      (∀ n ∈ serviceNames p, ∀ d ∈ deps p n, Before (getServiceOrder p) d n)) ∧
    (∀ (e : Engine) (data : ComposeModel) (hash : String),
      (data.composeFile ≠ none ∨ data.composeContent ≠ none) →
      (∀ x, e.netCreateErr x = false) → (∀ x, e.volCreateErr x = false) →
      (∀ x, e.ctrCreateErr x = false) → (∀ x, e.ctrStartErr x = false) →
      startedServices (composeCreate e data (.ok p) hash).ops =
        getServiceOrder p) := by
  obtain ⟨rank, hR⟩ := hacyc
  obtain ⟨hnd, hmem⟩ := getServiceOrder_nodup_mem p
  have htopo := getServiceOrder_topo p hR
  refine ⟨⟨hnd, hmem, ?_⟩, ?_⟩
  · intro n hn d hd
    exact htopo n (hmem n hn) d hd
  · intro e data hash hsome h1 h2 h3 h4
    exact composeCreate_started e data p hash hsome h1 h2 h3 h4

/-- C1 witness: the conclusion instantiated on the acyclic two-service
project witP, with a daemon oracle on which nothing exists or fails. -/
theorem C1_witness :
    Acyclic witP ∧ DepsDefined witP ∧
    (getServiceOrder witP).Nodup ∧
    Before (getServiceOrder witP) "db" "web" ∧
    startedServices (composeCreate quietEngine witData (.ok witP) "h").ops =
      getServiceOrder witP := by
  have hacyc : Acyclic witP := ⟨witRank, by unfold RankOk; decide⟩
  have hdef : DepsDefined witP := by unfold DepsDefined; decide
  have h := C1_topological_order witP hacyc hdef
  refine ⟨hacyc, hdef, h.1.1, ?_, ?_⟩
  · exact h.1.2.2 "web" (by decide) "db" (by decide)
  · exact h.2 quietEngine witData "h" (Or.inr (by decide)) (fun x => rfl)
      (fun x => rfl) (fun x => rfl) (fun x => rfl)

/-- C2 counterexample: two enumerations of the same compose project — equal
service-name lists and permuted depends_on entry lists — on which
getServiceOrder returns different lists.  The depends_on sets are Go maps,
so both enumerations occur across invocations; the sort canonicalizes only
the top-level service names. -/
theorem C2_counterexample :
    serviceNames cexP1 = serviceNames cexP2 ∧
    (∀ n ∈ serviceNames cexP1, (deps cexP1 n).Perm (deps cexP2 n)) ∧
    getServiceOrder cexP1 ≠ getServiceOrder cexP2 := by
  refine ⟨by decide, by decide, by decide⟩

/-- C2 amended: getServiceOrder is deterministic when every service has at
most one depends_on entry — any two enumerations of the same project (same
service-name set, same depends_on sets) then return exactly the same list;
with two or more dependencies the result depends on the enumeration order
of the depends_on map, which sorting the service names does not fix. -/
theorem C2_amended_determinism (p1 p2 : Project)
    (hperm : (serviceNames p1).Perm (serviceNames p2))
    (hsame : ∀ n ∈ serviceNames p1, (deps p1 n).Perm (deps p2 n))
    (hone : ∀ n ∈ serviceNames p1, (deps p1 n).length ≤ 1) :
    getServiceOrder p1 = getServiceOrder p2 :=
  getServiceOrder_congr hperm (deps_eq_of_perm_le_one hperm hsame hone)

/-- C2 witness: the amended determinism applied to two enumerations of a
single-dependency project. -/
theorem C2_witness :
    (serviceNames detP1).Perm (serviceNames detP2) ∧
    getServiceOrder detP1 = getServiceOrder detP2 := by
  refine ⟨by decide, ?_⟩
  exact C2_amended_determinism detP1 detP2 (by decide) (by decide) (by decide)

/-- C3: waitForConvergence polls inspect, returning as soon as the reply is
terminal (UpdateStatus absent, completed, or paused) and never adding an
error diagnostic; when no terminal reply arrives within the poll budget it
adds exactly the warning Service Convergence Timeout. -/
theorem C3_convergence_warning_only (cfg : Option ConvergeConfig)
    (polls : Nat → InspectResult) :
    (waitForConvergence cfg polls).errors = [] ∧
    (∀ c, cfg = some c → (∀ k, k < c.budget → isTerminal (polls k) = false) →
      waitForConvergence cfg polls =
        ⟨["Service Convergence Timeout"], [], c.budget⟩) ∧
    (∀ c j, cfg = some c → j < c.budget → isTerminal (polls j) = true →
      (∀ k, k < j → isTerminal (polls k) = false) →
      waitForConvergence cfg polls = ⟨terminalWarnings (polls j), [], j + 1⟩) := by
  refine ⟨?_, ?_, ?_⟩
  · cases cfg with
    | none => rfl
    | some c => exact waitLoop_errors polls c.budget 0
  · intro c hc h
    subst hc
    have := waitLoop_timeout polls c.budget 0 (by simpa using h)
    simpa [waitForConvergence] using this
  · intro c j hc hj hterm hbefore
    subst hc
    have := waitLoop_first_terminal polls j c.budget 0 hj (by simpa using hterm)
      (by simpa using hbefore)
    simpa [waitForConvergence] using this

/-- C3 witness: with a budget of five polls, two failed inspects followed
by a service without UpdateStatus converge at the third poll with no
diagnostics. -/
theorem C3_witness :
    (waitForConvergence (some ⟨5⟩) pollsDone).errors = [] ∧
    waitForConvergence (some ⟨5⟩) pollsDone = ⟨[], [], 3⟩ := by
  constructor
  · exact (C3_convergence_warning_only (some ⟨5⟩) pollsDone).1
  · have h := (C3_convergence_warning_only (some ⟨5⟩) pollsDone).2.2 ⟨5⟩ 2
      rfl (by decide) (by decide) (by decide)
    rw [h]
    rfl

/-- C4 counterexample: the registry image resource receives the daemon's
not-found report for its image and leaves the resource in state rather than
removing it, refuting the universal claim. -/
theorem C4_counterexample :
    strContains "Error response from daemon: No such image: nginx:latest"
      "No such image" = true ∧
    registryImageReadAction
      (some "Error response from daemon: No such image: nginx:latest") ≠
      ReadAction.removeFromState := by decide

/-- C4 amended: every resource whose Read does an existence lookup removes
the resource from state, without an error diagnostic, when the lookup
reports the object gone — except docker_registry_image, which deliberately
keeps state on a local No-such-image report, and docker_org_team_member,
which removes only on a successful membership listing without the member
and surfaces lookup errors (404 included) as error diagnostics;
docker_compose performs no existence lookup at all. -/
theorem C4_amended_read_404 :
    (∀ entry ∈ readBranches, entry.2.1 (some entry.2.2) = .removeFromState) ∧
    orgTeamMemberReadAction (.ok false) = .removeFromState ∧
    registryImageReadAction
      (some "Error response from daemon: No such image: nginx:latest") =
      .keepState := by
  refine ⟨by decide, rfl, by decide⟩

/-- C4 witness: the network resource's branch on the daemon's not-found
report, taken from the table. -/
theorem C4_witness :
    ("network", networkReadAction,
      "Error response from daemon: network abc123 not found") ∈ readBranches ∧
    networkReadAction
      (some "Error response from daemon: network abc123 not found") =
      .removeFromState := by
  have hmem : ("network", networkReadAction,
      "Error response from daemon: network abc123 not found") ∈ readBranches := by
    unfold readBranches
    exact List.mem_cons_self _ _
  exact ⟨hmem, C4_amended_read_404.1 _ hmem⟩

/-- C5 counterexample: with username and password set, a login reply with
status 200 whose body fails to decode makes NewClient return an error even
though the request neither failed nor returned a non-200 status — the
claimed equivalence fails. -/
theorem C5_counterexample :
    isErr (newHubClient ⟨"user", "pass", ""⟩ (.response 200 none)).1 = true ∧
    ¬ loginFailedOrNon200 (.response 200 none) :=
  ⟨by decide, fun h => h rfl⟩

/-- C5 amended: with a non-empty token NewClient stores it and performs no
HTTP request and returns no error; with an empty token and non-empty
username and password it performs exactly one login request and errors
exactly when that request fails, returns a non-200 status, or returns a
200 body that does not decode. -/
theorem C5_amended_auth (c : HubConfig) (login : LoginOutcome) :
    (c.token ≠ "" →
      (newHubClient c login).1 = .ok ⟨c.token, c.username⟩ ∧
      (newHubClient c login).2 = 0) ∧
    (c.token = "" → c.username ≠ "" → c.password ≠ "" →
      (newHubClient c login).2 = 1 ∧
      (isErr (newHubClient c login).1 = true ↔ loginFails login)) := by
  constructor
  · intro ht
    simp [newHubClient, ht]
  · intro ht hu hp
    have hcond : c.username ≠ "" ∧ c.password ≠ "" := ⟨hu, hp⟩
    cases login with
    | transportErr m =>
      refine ⟨?_, ?_⟩
      · simp [newHubClient, ht, hcond, authenticate]
      · simp [newHubClient, ht, hcond, authenticate, isErr, loginFails]
    | response status body =>
      by_cases hs : status = 200
      · subst hs
        cases body with
        | none =>
          refine ⟨?_, ?_⟩
          · simp [newHubClient, ht, hcond, authenticate]
          · simp [newHubClient, ht, hcond, authenticate, isErr, loginFails]
        | some t =>
          refine ⟨?_, ?_⟩
          · simp [newHubClient, ht, hcond, authenticate]
          · simp [newHubClient, ht, hcond, authenticate, isErr, loginFails]
      · refine ⟨?_, ?_⟩
        · simp [newHubClient, ht, hcond, authenticate, hs]
        · simp [newHubClient, ht, hcond, authenticate, hs, isErr, loginFails]

/-- C5 witness: a 500 reply to the login request yields exactly one HTTP
request and an error. -/
theorem C5_witness :
    (newHubClient ⟨"user", "pass", ""⟩ (.response 500 (some "t"))).2 = 1 ∧
    isErr (newHubClient ⟨"user", "pass", ""⟩ (.response 500 (some "t"))).1 = true := by
  have h := (C5_amended_auth ⟨"user", "pass", ""⟩ (.response 500 (some "t"))).2
    rfl (by decide) (by decide)
  exact ⟨h.1, h.2.mpr (Or.inl (by decide))⟩

/-- C6 counterexample: a compose Create on a one-service project issues
four Docker API requests, not a single request-response round trip, and
the convergence wait issues one inspect per poll slot — a polling loop. -/
theorem C6_counterexample :
    (composeCreate quietEngine witData (.ok witP6) "h").ops.length = 4 ∧
    (waitLoop pollsStuck 0 3).inspects = 3 := by decide

/-- C6 amended: each compose Create issues a bounded, sequential series of
synchronous requests — at most two per network, two per volume, three per
service plus one final list — and the convergence wait issues at most one
inspect per poll slot of its budget; there is no other repetition. -/
theorem C6_amended_bounded_requests (e : Engine) (data : ComposeModel)
    (project : Project) (hash : String) (polls : Nat → InspectResult)
    (b i : Nat) :
    ((composeCreate e data (.ok project) hash).ops.length ≤
      2 * project.networks.length + 2 * project.volumes.length +
        3 * (getServiceOrder project).length + 1) ∧
    (waitLoop polls i b).inspects ≤ b :=
  ⟨composeCreate_ops_bound e data project hash, waitLoop_inspects_le polls b i⟩

/-- C6 witness: the request bound instantiated on the one-service project
and a three-slot convergence wait. -/
theorem C6_witness :
    ((composeCreate quietEngine witData (.ok witP6) "h").ops.length ≤
      2 * witP6.networks.length + 2 * witP6.volumes.length +
        3 * (getServiceOrder witP6).length + 1) ∧
    (waitLoop pollsStuck 0 3).inspects ≤ 3 :=
  C6_amended_bounded_requests quietEngine witData witP6 "h" pollsStuck 3 0

lemma mem_listByProject {objs : List LabeledObj} {pn : String} {o : LabeledObj} :
    o ∈ listByProject objs pn ↔ o ∈ objs ∧ hasProjectLabel pn o = true := by
  simp [listByProject, List.mem_filter]

lemma composeDelete_ops_mem (st : EngineState) (data : ComposeModel)
    (op : DockerOp) (hop : op ∈ (composeDelete st data).2) :
    op = .containerList data.projectName ∨
    (∃ c ∈ listByProject st.containers data.projectName,
        op = .containerStop c.id ∨ op = .containerRemove c.id) ∨
    op = .networkList data.projectName ∨
    (∃ n ∈ listByProject st.networks data.projectName,
        op = .networkRemove n.id) ∨
    (data.removeVolumes = true ∧
      (op = .volumeList data.projectName ∨
       ∃ v ∈ listByProject st.volumes data.projectName,
         op = .volumeRemove v.id)) := by
  by_cases hrv : data.removeVolumes = true
  · have hops : (composeDelete st data).2 =
        (DockerOp.containerList data.projectName ::
          ((listByProject st.containers data.projectName).map
            (fun c => [DockerOp.containerStop c.id,
              DockerOp.containerRemove c.id])).flatten)
        ++ (DockerOp.networkList data.projectName ::
          (listByProject st.networks data.projectName).map
            (fun n => DockerOp.networkRemove n.id))
        ++ (DockerOp.volumeList data.projectName ::
          (listByProject st.volumes data.projectName).map
            (fun v => DockerOp.volumeRemove v.id)) := by
      simp [composeDelete, removeProjectContainers, removeProjectNetworks,
        removeProjectVolumes, hrv]
    rw [hops] at hop
    rcases List.mem_append.mp hop with h12 | h3
    · rcases List.mem_append.mp h12 with h1 | h2
      · rcases List.mem_cons.mp h1 with heq | hfl
        · exact Or.inl heq
        · obtain ⟨c, hc, hor⟩ := mem_stopRemoveOps hfl
          exact Or.inr (Or.inl ⟨c, hc, hor⟩)
      · rcases List.mem_cons.mp h2 with heq | hmap
        · exact Or.inr (Or.inr (Or.inl heq))
        · obtain ⟨nobj, hn2, heq⟩ := List.mem_map.mp hmap
          exact Or.inr (Or.inr (Or.inr (Or.inl ⟨nobj, hn2, heq.symm⟩)))
    · rcases List.mem_cons.mp h3 with heq | hmap
      · exact Or.inr (Or.inr (Or.inr (Or.inr ⟨hrv, Or.inl heq⟩)))
      · obtain ⟨vobj, hv2, heq⟩ := List.mem_map.mp hmap
        exact Or.inr (Or.inr (Or.inr (Or.inr ⟨hrv, Or.inr ⟨vobj, hv2, heq.symm⟩⟩)))
  · have hops : (composeDelete st data).2 =
        (DockerOp.containerList data.projectName ::
          ((listByProject st.containers data.projectName).map
            (fun c => [DockerOp.containerStop c.id,
              DockerOp.containerRemove c.id])).flatten)
        ++ (DockerOp.networkList data.projectName ::
          (listByProject st.networks data.projectName).map
            (fun n => DockerOp.networkRemove n.id)) := by
      simp [composeDelete, removeProjectContainers, removeProjectNetworks, hrv]
    rw [hops] at hop
    rcases List.mem_append.mp hop with h1 | h2
    · rcases List.mem_cons.mp h1 with heq | hfl
      · exact Or.inl heq
      · obtain ⟨c, hc, hor⟩ := mem_stopRemoveOps hfl
        exact Or.inr (Or.inl ⟨c, hc, hor⟩)
    · rcases List.mem_cons.mp h2 with heq | hmap
      · exact Or.inr (Or.inr (Or.inl heq))
      · obtain ⟨nobj, hn2, heq⟩ := List.mem_map.mp hmap
        exact Or.inr (Or.inr (Or.inr (Or.inl ⟨nobj, hn2, heq.symm⟩)))

/-- C7: compose Delete removes exactly the containers and networks carrying
the project label, removes the labeled volumes only when remove_volumes is
set (otherwise volumes are untouched and no volume request is issued), and
every stop or remove it issues targets an object carrying the label. -/
theorem C7_delete_frame (st : EngineState) (data : ComposeModel)
    (hc : (st.containers.map (fun o => o.id)).Nodup)
    (hn : (st.networks.map (fun o => o.id)).Nodup)
    (hv : (st.volumes.map (fun o => o.id)).Nodup) :
    (composeDelete st data).1.containers =
      st.containers.filter (fun o => !(hasProjectLabel data.projectName o)) ∧
    (composeDelete st data).1.networks =
      st.networks.filter (fun o => !(hasProjectLabel data.projectName o)) ∧
    (composeDelete st data).1.volumes =
      (if data.removeVolumes then
        st.volumes.filter (fun o => !(hasProjectLabel data.projectName o))
       else st.volumes) ∧
    (data.removeVolumes = false →
      ∀ x, DockerOp.volumeRemove x ∉ (composeDelete st data).2) ∧
    (∀ x, DockerOp.containerStop x ∈ (composeDelete st data).2 →
      ∃ o ∈ st.containers, o.id = x ∧ hasProjectLabel data.projectName o = true) ∧
    (∀ x, DockerOp.containerRemove x ∈ (composeDelete st data).2 →
      ∃ o ∈ st.containers, o.id = x ∧ hasProjectLabel data.projectName o = true) ∧
    (∀ x, DockerOp.networkRemove x ∈ (composeDelete st data).2 →
      ∃ o ∈ st.networks, o.id = x ∧ hasProjectLabel data.projectName o = true) ∧
    (∀ x, DockerOp.volumeRemove x ∈ (composeDelete st data).2 →
      ∃ o ∈ st.volumes, o.id = x ∧ hasProjectLabel data.projectName o = true) := by
  have hcs := removeIds_filter_spec st.containers
    (fun o => hasProjectLabel data.projectName o) hc
  have hns := removeIds_filter_spec st.networks
    (fun o => hasProjectLabel data.projectName o) hn
  have hvs := removeIds_filter_spec st.volumes
    (fun o => hasProjectLabel data.projectName o) hv
  refine ⟨?_, ?_, ?_, ?_, ?_, ?_, ?_, ?_⟩
  · by_cases hrv : data.removeVolumes = true
    · simp [composeDelete, removeProjectContainers, removeProjectNetworks,
        removeProjectVolumes, listByProject, hrv, hcs]
    · simp [composeDelete, removeProjectContainers, removeProjectNetworks,
        listByProject, hrv, hcs]
  · by_cases hrv : data.removeVolumes = true
    · simp [composeDelete, removeProjectContainers, removeProjectNetworks,
        removeProjectVolumes, listByProject, hrv, hns]
    · simp [composeDelete, removeProjectContainers, removeProjectNetworks,
        listByProject, hrv, hns]
  · by_cases hrv : data.removeVolumes = true
    · simp [composeDelete, removeProjectContainers, removeProjectNetworks,
        removeProjectVolumes, listByProject, hrv, hvs]
    · simp [composeDelete, removeProjectContainers, removeProjectNetworks,
        listByProject, hrv]
  · intro hrv0 x hx
    rcases composeDelete_ops_mem st data _ hx with h | h | h | h | h
    · exact absurd h (by simp)
    · obtain ⟨c, _, hor⟩ := h
      rcases hor with heq | heq
      · exact absurd heq (by simp)
      · exact absurd heq (by simp)
    · exact absurd h (by simp)
    · obtain ⟨nobj, _, heq⟩ := h
      exact absurd heq (by simp)
    · rw [hrv0] at h
      exact absurd h.1 (by simp)
  · intro x hx
    rcases composeDelete_ops_mem st data _ hx with h | h | h | h | h
    · exact absurd h (by simp)
    · obtain ⟨c, hcf, hor⟩ := h
      rcases hor with heq | heq
      · have hid : c.id = x := by simpa using heq.symm
        obtain ⟨hmem, hlab⟩ := mem_listByProject.mp hcf
        exact ⟨c, hmem, hid, hlab⟩
      · exact absurd heq (by simp)
    · exact absurd h (by simp)
    · obtain ⟨nobj, _, heq⟩ := h
      exact absurd heq (by simp)
    · rcases h.2 with heq | ⟨vobj, _, heq⟩
      · exact absurd heq (by simp)
      · exact absurd heq (by simp)
  · intro x hx
    rcases composeDelete_ops_mem st data _ hx with h | h | h | h | h
    · exact absurd h (by simp)
    · obtain ⟨c, hcf, hor⟩ := h
      rcases hor with heq | heq
      · exact absurd heq (by simp)
      · have hid : c.id = x := by simpa using heq.symm
        obtain ⟨hmem, hlab⟩ := mem_listByProject.mp hcf
        exact ⟨c, hmem, hid, hlab⟩
    · exact absurd h (by simp)
    · obtain ⟨nobj, _, heq⟩ := h
      exact absurd heq (by simp)
    · rcases h.2 with heq | ⟨vobj, _, heq⟩
      · exact absurd heq (by simp)
      · exact absurd heq (by simp)
  · intro x hx
    rcases composeDelete_ops_mem st data _ hx with h | h | h | h | h
    · exact absurd h (by simp)
    · obtain ⟨c, _, hor⟩ := h
      rcases hor with heq | heq
      · exact absurd heq (by simp)
      · exact absurd heq (by simp)
    · exact absurd h (by simp)
    · obtain ⟨nobj, hnf, heq⟩ := h
      have hid : nobj.id = x := by simpa using heq.symm
      obtain ⟨hmem, hlab⟩ := mem_listByProject.mp hnf
      exact ⟨nobj, hmem, hid, hlab⟩
    · rcases h.2 with heq | ⟨vobj, _, heq⟩
      · exact absurd heq (by simp)
      · exact absurd heq (by simp)
  · intro x hx
    rcases composeDelete_ops_mem st data _ hx with h | h | h | h | h
    · exact absurd h (by simp)
    · obtain ⟨c, _, hor⟩ := h
      rcases hor with heq | heq
      · exact absurd heq (by simp)
      · exact absurd heq (by simp)
    · exact absurd h (by simp)
    · obtain ⟨nobj, _, heq⟩ := h
      exact absurd heq (by simp)
    · obtain ⟨_, h2⟩ := h
      rcases h2 with heq | ⟨vobj, hvf, heq⟩
      · exact absurd heq (by simp)
      · have hid : vobj.id = x := by simpa using heq.symm
        obtain ⟨hmem, hlab⟩ := mem_listByProject.mp hvf
        exact ⟨vobj, hmem, hid, hlab⟩

/-- C7 witness: on a daemon holding one labeled and one unlabeled object
per store, Delete with remove_volumes unset removes exactly the labeled
container and network and leaves the volumes untouched. -/
theorem C7_witness :
    (witDelState.containers.map (fun o => o.id)).Nodup ∧
    (composeDelete witDelState witDelData).1.containers =
      [⟨"c2", [("other", "x")]⟩] ∧
    (composeDelete witDelState witDelData).1.volumes = witDelState.volumes := by
  have h := C7_delete_frame witDelState witDelData (by decide) (by decide)
    (by decide)
  refine ⟨by decide, ?_, ?_⟩
  · rw [h.1]
    decide
  · rw [h.2.2.1]
    decide

/-- C8: with both compose_file and compose_content null, Create adds the
Missing Compose Configuration error and returns before issuing any Docker
request and before writing state. -/
theorem C8_missing_config (e : Engine) (data : ComposeModel)
    (parsed : Except String Project) (hash : String)
    (h1 : data.composeFile = none) (h2 : data.composeContent = none) :
    composeCreate e data parsed hash =
      { errors := ["Missing Compose Configuration"], ops := [],
        newState := none } := by
  unfold composeCreate
  rw [h1, h2]
  simp

/-- C8 witness: the guard on the empty compose model. -/
theorem C8_witness :
    emptyData.composeFile = none ∧ emptyData.composeContent = none ∧
    composeCreate quietEngine emptyData (.error "no file") "h" =
      { errors := ["Missing Compose Configuration"], ops := [],
        newState := none } :=
  ⟨rfl, rfl, C8_missing_config quietEngine emptyData (.error "no file") "h" rfl rfl⟩

/-- C9: for every compose project, getServiceOrder lists each defined
service exactly once, even when a depends_on entry names an undefined
service. -/
theorem C9_service_counted_once (p : Project) :
    ∀ n ∈ serviceNames p, (getServiceOrder p).count n = 1 := by
  intro n hn
  obtain ⟨hnd, hmem⟩ := getServiceOrder_nodup_mem p
  exact List.count_eq_one_of_mem hnd (hmem n hn)

/-- C9 witness: a project whose first service depends on the undefined
name zz still lists each defined service exactly once. -/
theorem C9_witness :
    "b" ∈ serviceNames witP9 ∧ (getServiceOrder witP9).count "b" = 1 :=
  ⟨by decide, C9_service_counted_once witP9 "b" (by decide)⟩

/-- C10: Configure attempts a Docker Hub client exactly when a hub
username and a hub password or token are present; when that client build
fails, Configure adds only the warning Docker Hub Authentication Failed,
completes without error, and publishes provider data with a nil Hub client
while the Docker client is still set. -/
theorem C10_hub_warning_only (cfg : ProviderConfig) (env : EnvVars)
    (login : LoginOutcome)
    (htls : tlsConfigMissing cfg env = false) :
    (((configure cfg env (.ok ()) login).hubAttempted = true) ↔
      (effective env.hubUsername cfg.hubUsername ≠ "" ∧
        (effective env.hubPassword cfg.hubPassword ≠ "" ∨
         effective env.hubToken cfg.hubToken ≠ ""))) ∧
    (isErr (newHubClient ⟨effective env.hubUsername cfg.hubUsername,
        effective env.hubPassword cfg.hubPassword,
        effective env.hubToken cfg.hubToken⟩ login).1 = true →
      effective env.hubUsername cfg.hubUsername ≠ "" →
      (effective env.hubPassword cfg.hubPassword ≠ "" ∨
       effective env.hubToken cfg.hubToken ≠ "") →
      configure cfg env (.ok ()) login =
        { errors := [], warnings := ["Docker Hub Authentication Failed"],
          hubAttempted := true, providerData := some none }) := by
  constructor
  · by_cases hcond : effective env.hubUsername cfg.hubUsername ≠ "" ∧
        (effective env.hubPassword cfg.hubPassword ≠ "" ∨
         effective env.hubToken cfg.hubToken ≠ "")
    · cases hres : (newHubClient ⟨effective env.hubUsername cfg.hubUsername,
          effective env.hubPassword cfg.hubPassword,
          effective env.hubToken cfg.hubToken⟩ login).1 with
      | error m => simp [configure, htls, hcond, hres]
      | ok c => simp [configure, htls, hcond, hres]
    · simp [configure, htls, hcond]
  · intro herr hu hpt
    have hcond : effective env.hubUsername cfg.hubUsername ≠ "" ∧
        (effective env.hubPassword cfg.hubPassword ≠ "" ∨
         effective env.hubToken cfg.hubToken ≠ "") := ⟨hu, hpt⟩
    cases hres : (newHubClient ⟨effective env.hubUsername cfg.hubUsername,
        effective env.hubPassword cfg.hubPassword,
        effective env.hubToken cfg.hubToken⟩ login).1 with
    | error m => simp [configure, htls, hcond, hres]
    | ok c =>
      rw [hres] at herr
      exact absurd herr (by simp [isErr])

/-- C10 witness: hub credentials present, the login request refused — the
warning is added, no error, provider data published with a nil Hub client. -/
theorem C10_witness :
    tlsConfigMissing cfg0 env0 = false ∧
    configure cfg0 env0 (.ok ()) (.transportErr "dial tcp: refused") =
      { errors := [], warnings := ["Docker Hub Authentication Failed"],
        hubAttempted := true, providerData := some none } := by
  refine ⟨by decide, ?_⟩
  exact (C10_hub_warning_only cfg0 env0 (.transportErr "dial tcp: refused")
    (by decide)).2 (by decide) (by decide) (by decide)

end TPD
